import Mathlib

/-!
# Verification of the desipipe task-execution engine and file catalog

The repository ships a distributed task pipeline framework: tasks are
recorded into a persistent queue, dependencies are resolved, workers execute
ready tasks, and results are cached content-addressed by a fingerprint of
code + inputs.  The engine implementation is not part of the source tree
available here (only example notebooks and file-catalog data are), so the
engine is modelled from the specification, and the claims are settled
against that model.  Every definition whose doc comment starts with
`Modelled from the spec:` embeds a component that the specification
describes but whose source is missing.
-/

namespace Desipipe

/-- Modelled from the spec: the task record states (source of `Queue`,
`WAITING/PENDING/RUNNING/SUCCEEDED/FAILED/KILLED/UNKNOWN` is missing). -/
inductive TState where
  | WAITING
  | PENDING
  | RUNNING
  | SUCCEEDED
  | FAILED
  | KILLED
  | UNKNOWN
deriving DecidableEq, Repr

/-- Modelled from the spec: the two task kinds; PYTHON_APP returns a value,
BASH_APP executes an argv and captures stdout. -/
inductive TaskKind where
  | PYTHON_APP
  | BASH_APP
deriving DecidableEq, Repr

/-- Modelled from the spec: a queue is ACTIVE or PAUSED. -/
inductive QState where
  | ACTIVE
  | PAUSED
deriving DecidableEq, Repr

/-- Modelled from the spec: a future is a client-side weak reference
`(queue_name, task_id, expected_fingerprint)`; the queue is implicit here
since the model holds a single queue. -/
structure Future where
  task_id : Nat
  fingerprint : String
deriving DecidableEq, Repr

/-- Modelled from the spec: an argument of a task call is either a scalar
(serialized value) or an embedded future (lifted by the dependency
resolver). -/
inductive CallArg where
  | scalar (s : String)
  | fut (f : Future)
deriving DecidableEq, Repr

/-- Modelled from the spec: a declared app (Task Manager front-end): the
callable's logical name, its kind, its normalized source text
(`code_blob`), and the aliasing controls `skip` and `name` (`name = none`
means not named; `name = some a` covers both `name=True`, where `a` is the
app name, and `name="alias"`). -/
structure AppDecl where
  app_name : String
  kind : TaskKind
  code_blob : String
  skip : Bool
  name : Option String
deriving DecidableEq, Repr

/-- Modelled from the spec: the deterministic fingerprint over
(`app_name` OR `code_blob`, resolved args, dep fingerprints).  The hash is
modelled as a canonical injective-by-construction encoding; no claim below
relies on collision-freeness of the real 256-bit hash. -/
def fingerprint (name : Option String) (code_blob : String)
    (args : List String) (deps : List String) : String :=
  (match name with
   | some a => "name:" ++ a
   | none => "code:" ++ code_blob)
  ++ ";args:" ++ String.intercalate "," args
  ++ ";deps:" ++ String.intercalate "," deps

/-- Modelled from the spec: a task record, one per enqueued unit of work. -/
structure TaskRecord where
  id : Nat
  app_name : String
  kind : TaskKind
  code_blob : String
  args : List String
  dep_ids : List Nat
  fingerprint : String
  state : TState
  errno : Int
  out : String
  err : String
  result_ref : Option String
deriving DecidableEq, Repr

/-- Modelled from the spec: the whole persistent state of one queue: the
queue state, the record store (id-indexed), the content-addressed result
cache (fingerprint-indexed), and the next record id (ids are
queue-unique and monotonic). -/
structure Sys where
  qstate : QState
  records : Nat → Option TaskRecord
  cache : String → Option String
  nextId : Nat

/-- Ids at or above `nextId` are unallocated. -/
def FreshIds (sys : Sys) : Prop :=
  ∀ n, sys.nextId ≤ n → sys.records n = none

/-- Modelled from the spec: `Result Cache.has(fingerprint)`. -/
def cacheHas (c : String → Option String) (fp : String) : Bool :=
  (c fp).isSome

/-- Modelled from the spec: `Result Cache.put` is write-once per
fingerprint (skip on hit). -/
def cachePut (c : String → Option String) (fp payload : String) :
    String → Option String :=
  if (c fp).isSome then c else fun k => if k = fp then some payload else c k

/-- Modelled from the spec: the dependency resolver replaces each embedded
future by its referent's fingerprint when serializing arguments. -/
def resolveArg : CallArg → String
  | .scalar s => s
  | .fut f => f.fingerprint

/-- The futures embedded in a call's arguments, in order. -/
def depFutures (args : List CallArg) : List Future :=
  args.filterMap fun a =>
    match a with
    | .fut f => some f
    | .scalar _ => none

/-- Modelled from the spec: fingerprint of a task call: app name (if the
task is named) or code blob, then resolved args, then dependency
fingerprints. -/
def taskFingerprint (d : AppDecl) (args : List CallArg) : String :=
  fingerprint d.name d.code_blob (args.map resolveArg)
    ((depFutures args).map Future.fingerprint)

/-- Whether the record of the given id is SUCCEEDED. -/
def depSucceeded (sys : Sys) (i : Nat) : Bool :=
  match sys.records i with
  | some r => r.state = .SUCCEEDED
  | none => false

/-- Whether every dependency id has a SUCCEEDED record. -/
def depsSucceeded (sys : Sys) (dep_ids : List Nat) : Bool :=
  dep_ids.all (depSucceeded sys)

/-- Insert a record at its id and advance the id counter. -/
def insertRecord (sys : Sys) (r : TaskRecord) : Sys :=
  { sys with
    records := fun n => if n = r.id then some r else sys.records n
    nextId := sys.nextId + 1 }

/-- Modelled from the spec: the initial state and `result_ref` of a newly
appended record: SUCCEEDED pointing at the cache on a fingerprint hit,
else PENDING when every dependency is SUCCEEDED, else WAITING. -/
def initialState (sys : Sys) (fp : String) (deps : List Nat) :
    TState × Option String :=
  if cacheHas sys.cache fp then (.SUCCEEDED, some fp)
  else if depsSucceeded sys deps then (.PENDING, none)
  else (.WAITING, none)

/-- The record a non-skipped call appends to the queue. -/
def newRecord (sys : Sys) (d : AppDecl) (args : List CallArg) : TaskRecord :=
  { id := sys.nextId, app_name := d.app_name, kind := d.kind
    code_blob := d.code_blob, args := args.map resolveArg
    dep_ids := (depFutures args).map Future.task_id
    fingerprint := taskFingerprint d args
    state := (initialState sys (taskFingerprint d args)
      ((depFutures args).map Future.task_id)).1
    errno := 0, out := "", err := ""
    result_ref := (initialState sys (taskFingerprint d args)
      ((depFutures args).map Future.task_id)).2 }

/-- Modelled from the spec: the Task Manager's call wrapper (§4.9): if
`skip`, return a null future; else if the result cache holds the
fingerprint, insert the record already SUCCEEDED with `result_ref`
pointing at the cached payload; else insert WAITING or PENDING depending
on the dependencies, and return the future. -/
def callApp (sys : Sys) (d : AppDecl) (args : List CallArg) :
    Sys × Option Future :=
  if d.skip then (sys, none)
  else
    (insertRecord sys (newRecord sys d args),
     some { task_id := sys.nextId, fingerprint := taskFingerprint d args })

/-- Apply a record-level update at one id. -/
def updateRecord (sys : Sys) (i : Nat) (f : TaskRecord → TaskRecord) : Sys :=
  { sys with
    records := fun n => if n = i then (sys.records n).map f else sys.records n }

/-- Set the state of one record. -/
def setState (sys : Sys) (i : Nat) (st : TState) : Sys :=
  updateRecord sys i fun r => { r with state := st }

/-- Modelled from the spec: finalization RUNNING → SUCCEEDED: the worker's
payload is written into the result cache under the record's fingerprint,
`result_ref` is set and errno is zero. -/
def finishOkSys (sys : Sys) (i : Nat) (payload outS : String) : Sys :=
  match sys.records i with
  | some r =>
    { qstate := sys.qstate
      records := (updateRecord sys i fun r' =>
        { r' with state := .SUCCEEDED, errno := 0, out := outS
                  result_ref := some r'.fingerprint }).records
      cache := cachePut sys.cache r.fingerprint payload
      nextId := sys.nextId }
  | none => sys

/-- Modelled from the spec: finalization RUNNING → FAILED with captured
errno, err, out. -/
def finishFailSys (sys : Sys) (i : Nat) (e : Int) (errS outS : String) : Sys :=
  updateRecord sys i fun r =>
    { r with state := .FAILED, errno := e, err := errS, out := outS }

/-- Modelled from the spec: RUNNING → KILLED with captured err. -/
def killSys (sys : Sys) (i : Nat) (errS : String) : Sys :=
  updateRecord sys i fun r => { r with state := .KILLED, err := errS }

/-- Modelled from the spec: liveness sweep demotes RUNNING → UNKNOWN when
the worker's liveness is lost. -/
def lostSys (sys : Sys) (i : Nat) : Sys :=
  updateRecord sys i fun r => { r with state := .UNKNOWN }

/-- Modelled from the spec: `pause` sets the queue state PAUSED. -/
def pauseSys (sys : Sys) : Sys :=
  { sys with qstate := .PAUSED }

/-- Modelled from the spec: `resume` sets the queue state ACTIVE. -/
def resumeSys (sys : Sys) : Sys :=
  { sys with qstate := .ACTIVE }

/-- Modelled from the spec: `retry --state S` promotes every record in
state `S` back to PENDING, clearing the terminal fields (`errno`, `out`,
`err`) and `result_ref`; records in other states are untouched. -/
def retrySys (sys : Sys) (S : TState) : Sys :=
  { sys with
    records := fun n =>
      (sys.records n).map fun r =>
        if r.state = S then
          { r with state := .PENDING, errno := 0, out := "", err := ""
                   result_ref := none }
        else r }

/-- Modelled from the spec: BASH_APP executes an argv and captures its
stdout; only the command the examples use (`echo`, with and without `-n`)
is modelled.  `echo` prints its arguments joined by single spaces; `-n`
suppresses the trailing newline. -/
def bashStdout (argv : List String) : Option String :=
  match argv with
  | "echo" :: "-n" :: rest => some (String.intercalate " " rest)
  | "echo" :: rest => some (String.intercalate " " rest ++ "\n")
  | _ => none

/-- Modelled from the spec: the outcome `future.result()` surfaces:
either the deserialized payload, or `TaskFailed` carrying the captured
err (worker failures are data, never exceptions). -/
inductive Outcome where
  | ok (payload : String)
  | taskFailed (err : String)
deriving DecidableEq, Repr

/-- Terminal record states (SUCCEEDED, FAILED, KILLED). -/
def terminalState : TState → Bool
  | .SUCCEEDED => true
  | .FAILED => true
  | .KILLED => true
  | _ => false

/-- Read the cached payload a `result_ref` points at. -/
def deref (sys : Sys) (fp : String) : String :=
  (sys.cache fp).getD ""

/-- Modelled from the spec: one polling observation of a future's backing
record: `none` while the record is absent or non-terminal (the caller
keeps polling), the payload on SUCCEEDED (via `result_ref`), and
`TaskFailed` with the captured err on FAILED or KILLED. -/
def observe (sys : Sys) (f : Future) : Option Outcome :=
  match sys.records f.task_id with
  | none => none
  | some r =>
    match r.state with
    | .SUCCEEDED =>
      some (.ok (match r.result_ref with
                 | some fp => deref sys fp
                 | none => ""))
    | .FAILED => some (.taskFailed r.err)
    | .KILLED => some (.taskFailed r.err)
    | _ => none

/-- Modelled from the spec: `future.out()` returns the record's captured
stdout once the record is terminal, blocking (i.e. observing `none`)
before that. -/
def observeOut (sys : Sys) (f : Future) : Option String :=
  match sys.records f.task_id with
  | none => none
  | some r => if terminalState r.state then some r.out else none

/-- Modelled from the spec: `result()` polls the backing record over the
successive system states until a terminal state is observed. -/
def pollResult : List Sys → Future → Option Outcome
  | [], _ => none
  | s :: rest, f =>
    match observe s f with
    | some o => some o
    | none => pollResult rest f

/-- Labels of the engine's transitions. -/
inductive Label where
  | enq (d : AppDecl) (args : List CallArg)
  | promote (i : Nat)
  | claim (i : Nat)
  | finishOk (i : Nat) (payload outS : String)
  | finishBash (i : Nat)
  | finishFail (i : Nat) (e : Int) (errS outS : String)
  | kill (i : Nat) (errS : String)
  | lost (i : Nat)
  | pause
  | resume
deriving DecidableEq, Repr

/-- Modelled from the spec: the engine's transition relation.  `enq` is a
Task Manager call; `promote` moves a WAITING record whose dependencies
are all SUCCEEDED to PENDING; `claim` is `next_pending()` — it requires
the queue ACTIVE and all dependencies SUCCEEDED and moves
PENDING → RUNNING; the `finish*`/`kill` steps finalize a RUNNING record;
`lost` is the liveness sweep RUNNING → UNKNOWN; `pause`/`resume` flip the
queue state. -/
inductive Step : Sys → Label → Sys → Prop where
  | enq (sys : Sys) (d : AppDecl) (args : List CallArg) :
      Step sys (.enq d args) (callApp sys d args).1
  | promote (sys : Sys) (i : Nat) (r : TaskRecord) :
      sys.records i = some r → r.state = .WAITING →
      depsSucceeded sys r.dep_ids = true →
      Step sys (.promote i) (setState sys i .PENDING)
  | claim (sys : Sys) (i : Nat) (r : TaskRecord) :
      sys.qstate = .ACTIVE → sys.records i = some r → r.state = .PENDING →
      depsSucceeded sys r.dep_ids = true →
      Step sys (.claim i) (setState sys i .RUNNING)
  | finishOk (sys : Sys) (i : Nat) (r : TaskRecord) (payload outS : String) :
      sys.records i = some r → r.state = .RUNNING →
      Step sys (.finishOk i payload outS) (finishOkSys sys i payload outS)
  | finishBash (sys : Sys) (i : Nat) (r : TaskRecord) (o : String) :
      sys.records i = some r → r.state = .RUNNING → r.kind = .BASH_APP →
      bashStdout r.args = some o →
      Step sys (.finishBash i) (finishOkSys sys i o o)
  | finishFail (sys : Sys) (i : Nat) (r : TaskRecord) (e : Int) (errS outS : String) :
      sys.records i = some r → r.state = .RUNNING → e ≠ 0 →
      Step sys (.finishFail i e errS outS) (finishFailSys sys i e errS outS)
  | kill (sys : Sys) (i : Nat) (r : TaskRecord) (errS : String) :
      sys.records i = some r → r.state = .RUNNING →
      Step sys (.kill i errS) (killSys sys i errS)
  | lost (sys : Sys) (i : Nat) (r : TaskRecord) :
      sys.records i = some r → r.state = .RUNNING →
      Step sys (.lost i) (lostSys sys i)
  | pause (sys : Sys) :
      Step sys .pause (pauseSys sys)
  | resume (sys : Sys) :
      Step sys .resume (resumeSys sys)

/-- Finite executions of the engine. -/
inductive Steps : Sys → List Label → Sys → Prop where
  | nil (sys : Sys) : Steps sys [] sys
  | cons {sys sys' sys'' : Sys} {l : Label} {ls : List Label} :
      Step sys l sys' → Steps sys' ls sys'' → Steps sys (l :: ls) sys''

/-- The transition edges the spec allows for a task record's state:
`WAITING → PENDING → RUNNING → {SUCCEEDED, FAILED, KILLED}`, with
`UNKNOWN` reachable only from `RUNNING`. -/
def allowedEdge : TState → TState → Bool
  | .WAITING, .PENDING => true
  | .PENDING, .RUNNING => true
  | .RUNNING, .SUCCEEDED => true
  | .RUNNING, .FAILED => true
  | .RUNNING, .KILLED => true
  | .RUNNING, .UNKNOWN => true
  | _, _ => false

/-- The cleared PENDING form of a record, as `retry` produces it. -/
def clearedPending (r : TaskRecord) : TaskRecord :=
  { r with state := .PENDING, errno := 0, out := "", err := ""
           result_ref := none }

/-- A sample record used by the concrete witnesses. -/
def sampleRecord : TaskRecord :=
  { id := 0, app_name := "fraction", kind := .PYTHON_APP, code_blob := "src"
    args := [], dep_ids := [], fingerprint := "fp0", state := .SUCCEEDED
    errno := 0, out := "", err := "", result_ref := some "fp0" }

/-- A sample one-record system used by the concrete witnesses. -/
def sampleSys : Sys :=
  { qstate := .ACTIVE
    records := fun n => if n = 0 then some sampleRecord else none
    cache := fun k => if k = "fp0" then some "0.786" else none
    nextId := 1 }

/-- A sample skipped bash app declaration (the notebook's
`tm2.bash_app(skip=True)` echo2). -/
def skippedEcho2 : AppDecl :=
  { app_name := "echo2", kind := .BASH_APP, code_blob := "return 42"
    skip := true, name := none }

/-- A sample PENDING record with no dependencies, used by witnesses. -/
def pendingRecord : TaskRecord :=
  { id := 0, app_name := "fraction", kind := .PYTHON_APP, code_blob := "src"
    args := [], dep_ids := [], fingerprint := "fp1", state := .PENDING
    errno := 0, out := "", err := "", result_ref := none }

/-- A sample system holding one PENDING record, used by witnesses. -/
def pendingSys : Sys :=
  { qstate := .ACTIVE
    records := fun n => if n = 0 then some pendingRecord else none
    cache := fun _ => none
    nextId := 1 }

/-- Whether a label is a worker-execution claim. -/
def isClaim : Label → Bool
  | .claim _ => true
  | _ => false

/-- Enqueue one task and drive it to completion: append the record, claim
it (PENDING → RUNNING) and finalize it with the worker's payload. -/
def runToCompletion (sys : Sys) (d : AppDecl) (args : List CallArg)
    (payload outS : String) : Sys :=
  finishOkSys (setState (callApp sys d args).1 sys.nextId .RUNNING)
    sys.nextId payload outS

/-- Left-pad a digit string to four places with zeros. -/
def pad4 (s : String) : String :=
  String.mk (List.replicate (4 - s.length) '0') ++ s

/-- Round a nonnegative rational to the nearest integer count of
ten-thousandths: the floor of `q * 10000 + 1/2` over the reduced
numerator and denominator. -/
def tenThousandths (q : ℚ) : Nat :=
  ((q.num * 20000 + (q.den : ℤ)) / (2 * (q.den : ℤ))).toNat

/-- Modelled from the spec: Python fixed-point formatting with four
decimals, `'{:.4f}'.format`, for nonnegative rationals (rounding to
nearest; the values formatted in the examples are exact to four decimals,
so no tie-breaking is exercised). -/
def format4f (q : ℚ) : String :=
  Nat.repr (tenThousandths q / 10000) ++ "." ++
    pad4 (Nat.repr (tenThousandths q % 10000))

/-- The Monte-Carlo estimate of π computed in the recorded example
session (the notebook's `avg`, which prints as 3.1421); the spec's S4
formats this estimate, there named `pi`. -/
def piEstimate : ℚ := mkRat 31421 10000

/-- An empty queue system, used by witnesses. -/
def emptySys : Sys :=
  { qstate := .ACTIVE
    records := fun _ => none
    cache := fun _ => none
    nextId := 0 }

/-- A sample bash app declaration (the notebook's `echo`). -/
def echoDecl : AppDecl :=
  { app_name := "echo", kind := .BASH_APP
    code_blob := "def echo(avg): return argv"
    skip := false, name := none }

/-- A sample python app declaration (the notebook's `fraction`). -/
def fractionDecl : AppDecl :=
  { app_name := "fraction", kind := .PYTHON_APP
    code_blob := "def fraction(seed=42, size=10000): ..."
    skip := false, name := none }

/-- A sample named declaration (the notebook's `bash_app(name=True)`
fraction with one source text). -/
def namedDeclA : AppDecl :=
  { app_name := "fraction", kind := .PYTHON_APP
    code_blob := "def fraction(seed=42, size=10000): ..."
    skip := false, name := some "fraction" }

/-- The same name under a different source text (the notebook's rebinding
`def fraction(): return None`). -/
def namedDeclB : AppDecl :=
  { app_name := "fraction", kind := .BASH_APP
    code_blob := "def fraction(): return None"
    skip := false, name := some "fraction" }

/-- A system whose result cache already holds the named fingerprint. -/
def namedCacheSys : Sys :=
  { qstate := .ACTIVE
    records := fun _ => none
    cache := fun k => if k = taskFingerprint namedDeclA [] then some "0.786"
      else none
    nextId := 0 }

/-- A sample RUNNING record, used by witnesses. -/
def runningRecord : TaskRecord :=
  { pendingRecord with state := .RUNNING }

/-- A sample system holding one RUNNING record, used by witnesses. -/
def runningSys : Sys :=
  { qstate := .ACTIVE
    records := fun n => if n = 0 then some runningRecord else none
    cache := fun _ => none
    nextId := 1 }

/-- A sample FAILED record with a captured error, used by witnesses. -/
def failedRecord : TaskRecord :=
  { pendingRecord with state := .FAILED, errno := 1, err := "Traceback" }

/-- A sample system holding one FAILED record, used by witnesses. -/
def failedSys : Sys :=
  { qstate := .ACTIVE
    records := fun n => if n = 0 then some failedRecord else none
    cache := fun _ => none
    nextId := 1 }

/-- A value an option of a file-catalog entry can take. -/
inductive OptValue where
  | str (s : String)
  | int (n : Int)
deriving DecidableEq, Repr

/-- The format directive of a path-template field: `{name}` (plain) or
`{name:d}` (decimal). -/
inductive FieldFmt where
  | plain
  | decimal
deriving DecidableEq, Repr

/-- Modelled from the spec: a segment of a file-catalog path template:
literal text, an environment expansion `${NAME}`, or an option field
`{name}` / `{name:d}`. -/
inductive PathSeg where
  | lit (s : String)
  | env (name : String)
  | field (name : String) (fmt : FieldFmt)
deriving DecidableEq, Repr

/-- Modelled from the spec: an option specifier: an explicit value list or
a Python-style `range(start, stop, step)` specifier. -/
inductive OptionSpec where
  | values (vs : List OptValue)
  | range (start stop step : Int)
deriving DecidableEq, Repr

/-- Modelled from the spec: one file-catalog entry: `description`, `id`,
`filetype`, optional `author`, a `path` template and `options`. -/
structure FileEntry where
  description : String
  id : String
  filetype : String
  author : Option String
  path : List PathSeg
  options : List (String × OptionSpec)
deriving DecidableEq, Repr

/-- The integers of `range(start, stop, step)` for positive step (the
only form the catalogs use): start, start+step, … strictly below stop. -/
def rangeList (start stop step : Int) : List Int :=
  (List.range ((stop - start + step - 1) / step).toNat).map
    fun k => start + step * (k : Int)

/-- The values an option specifier expands to. -/
def OptionSpec.expand : OptionSpec → List OptValue
  | .values vs => vs
  | .range a b s => (rangeList a b s).map OptValue.int

/-- Decimal rendering of an integer. -/
def intStr : Int → String
  | .ofNat n => Nat.repr n
  | .negSucc n => "-" ++ Nat.repr (n + 1)

/-- Render one option value under a field format. -/
def formatValue : FieldFmt → OptValue → String
  | .plain, .str v => v
  | .plain, .int n => intStr n
  | .decimal, .int n => intStr n
  | .decimal, .str v => v

/-- Environment lookup, empty when the variable is unset. -/
def envLookup (env : List (String × String)) (name : String) : String :=
  match env.find? (fun p => p.1 = name) with
  | some p => p.2
  | none => ""

/-- Option-assignment lookup. -/
def asnLookup (asn : List (String × OptValue)) (name : String) :
    Option OptValue :=
  (asn.find? (fun p => p.1 = name)).map Prod.snd

/-- Modelled from the spec: render one path segment: literals verbatim,
`${NAME}` expanded from the environment at read time, fields formatted
from the option assignment. -/
def renderSeg (env : List (String × String)) (asn : List (String × OptValue)) :
    PathSeg → String
  | .lit s => s
  | .env n => envLookup env n
  | .field n fmt =>
    match asnLookup asn n with
    | some v => formatValue fmt v
    | none => ""

/-- Render a whole path template. -/
def renderPath (env : List (String × String)) (asn : List (String × OptValue))
    (path : List PathSeg) : String :=
  String.join (path.map (renderSeg env asn))

/-- Modelled from the spec: the assignments of the Cartesian product of
the options, in option order. -/
def expandOptions : List (String × OptionSpec) → List (List (String × OptValue))
  | [] => [[]]
  | (n, spec) :: rest =>
    spec.expand.flatMap fun v =>
      (expandOptions rest).map fun asn => (n, v) :: asn

/-- One expanded file of a catalog entry, as the notebook prints it. -/
structure File where
  filetype : String
  id : String
  author : Option String
  options : List (String × OptValue)
  description : String
  filepath : String
deriving DecidableEq, Repr

/-- Modelled from the spec: iterating over an entry yields one `File` per
assignment in the Cartesian product of its options, with path formatting
applied. -/
def entryFiles (env : List (String × String)) (e : FileEntry) : List File :=
  (expandOptions e.options).map fun asn =>
    { filetype := e.filetype, id := e.id, author := e.author
      options := asn, description := e.description
      filepath := renderPath env asn e.path }

/-- Split a character list into space-separated words (accumulator holds
the current word reversed). -/
def wordsAux : List Char → List Char → List String
  | [], acc => [String.mk acc.reverse]
  | c :: cs, acc =>
    if c = ' ' then String.mk acc.reverse :: wordsAux cs []
    else wordsAux cs (c :: acc)

/-- The space-separated words of a string. -/
def wordsOf (s : String) : List String :=
  wordsAux s.data []

/-- Modelled from the spec: keyword selection: every keyword must occur as
a word of the entry's description. -/
def keywordMatch (keywords descr : String) : Bool :=
  (wordsOf keywords).all fun k => (wordsOf descr).contains k

/-- Modelled from the spec: option-value filters restrict each filtered
option to the expanded values that the filter lists. -/
def applyFilters (filters : List (String × List OptValue))
    (opts : List (String × OptionSpec)) : List (String × OptionSpec) :=
  opts.map fun p =>
    match filters.find? (fun q => q.1 = p.1) with
    | some q => (p.1, .values (p.2.expand.filter fun v => q.2.contains v))
    | none => p

/-- Modelled from the spec: select one entry by keywords and filters. -/
def selectEntry (keywords : String) (filters : List (String × List OptValue))
    (e : FileEntry) : Option FileEntry :=
  if keywordMatch keywords e.description then
    some { e with options := applyFilters filters e.options }
  else none

/-- Modelled from the spec: `FileManager.select`. -/
def selectCatalog (keywords : String) (filters : List (String × List OptValue))
    (es : List FileEntry) : List FileEntry :=
  es.filterMap (selectEntry keywords filters)

/-- The `my_input_file` entry of the notebook's `_tests/files.yaml`. -/
def myInputFile : FileEntry :=
  { description := "Some text file", id := "my_input_file"
    filetype := "text", author := some "Chuck Norris"
    path := [.env "SOMEDIR", .lit "/in_", .field "option1" .plain,
             .lit "_", .field "i" .decimal, .lit ".txt"]
    options := [("option1", .values [.str "a", .str "b"]),
                ("i", .range 0 3 1)] }

/-- The notebook's FileManager environment, `SOMEDIR=_tests`. -/
def testsEnv : List (String × String) :=
  [("SOMEDIR", "_tests")]

/-- The written (surface) form of an option specifier: a `range(...)`
literal with its argument list, or a value list. -/
inductive SpecForm where
  | rangeForm (args : List Int)
  | listForm (vs : List OptValue)
deriving DecidableEq, Repr

/-- Modelled from the spec: the reader accepts `range(b)`, `range(a, b)`
and `range(a, b, c)` specifiers (as the catalogs use) and value lists. -/
def parseSpecForm : SpecForm → Option OptionSpec
  | .rangeForm [b] => some (.range 0 b 1)
  | .rangeForm [a, b] => some (.range a b 1)
  | .rangeForm [a, b, c] => some (.range a b c)
  | .rangeForm _ => none
  | .listForm vs => some (.values vs)

/-- Modelled from the write-back behavior the examples record: the
canonical written form of a specifier: `range(a, b)` when the step is 1
(so `range(0, 3, 1)` is written back as `range(0, 3)`), the three-argument
form otherwise, value lists verbatim. -/
def writeSpecForm : OptionSpec → SpecForm
  | .values vs => .listForm vs
  | .range a b s => if s = 1 then .rangeForm [a, b] else .rangeForm [a, b, s]

/-- The written form of one entry field. -/
inductive FieldForm where
  | scalarF (s : String)
  | pathF (p : List PathSeg)
  | optionsF (os : List (String × SpecForm))
deriving DecidableEq, Repr

/-- Sort a keyed association list by key (stable insertion sort). -/
def sortPairs {α : Type} (ps : List (String × α)) : List (String × α) :=
  List.insertionSort (fun p q => p.1 ≤ q.1) ps

/-- The fields of an entry as the writer collects them, the options block
already sorted by option key and specifiers in canonical form. -/
def entryFields (e : FileEntry) : List (String × FieldForm) :=
  [("description", .scalarF e.description), ("id", .scalarF e.id),
   ("filetype", .scalarF e.filetype), ("path", .pathF e.path),
   ("options", .optionsF (sortPairs
     (e.options.map fun p => (p.1, writeSpecForm p.2))))]
  ++ (match e.author with
      | some a => [("author", FieldForm.scalarF a)]
      | none => [])

/-- Modelled from the write-back behavior the examples record: the writer
emits the entry's fields sorted by key. -/
def writeEntryForm (e : FileEntry) : List (String × FieldForm) :=
  sortPairs (entryFields e)

/-- Parse a written options block. -/
def parseOptionsForm (os : List (String × SpecForm)) :
    Option (List (String × OptionSpec)) :=
  os.mapM fun p => (parseSpecForm p.2).map fun s => (p.1, s)

/-- Look a field up by key in a written entry. -/
def fieldLookup (fs : List (String × FieldForm)) (k : String) :
    Option FieldForm :=
  (fs.find? (fun p => p.1 = k)).map Prod.snd

/-- Modelled from the spec: the reader reassembles an entry from its
written fields (`author` optional). -/
def parseEntryForm (fs : List (String × FieldForm)) : Option FileEntry :=
  match fieldLookup fs "description", fieldLookup fs "id",
        fieldLookup fs "filetype", fieldLookup fs "path",
        fieldLookup fs "options" with
  | some (.scalarF de), some (.scalarF i), some (.scalarF ft),
    some (.pathF p), some (.optionsF os) =>
    (parseOptionsForm os).map fun opts =>
      { description := de, id := i, filetype := ft
        author := match fieldLookup fs "author" with
                  | some (.scalarF a) => some a
                  | _ => none
        path := p, options := opts }
  | _, _, _, _, _ => none

end Desipipe

namespace Desipipe

theorem updateRecord_records_self (sys : Sys) (i : Nat)
    (f : TaskRecord → TaskRecord) :
    (updateRecord sys i f).records i = (sys.records i).map f := by
  simp [updateRecord]

theorem updateRecord_records_ne (sys : Sys) (i j : Nat)
    (f : TaskRecord → TaskRecord) (h : j ≠ i) :
    (updateRecord sys i f).records j = sys.records j := by
  simp [updateRecord, h]

theorem callApp_records_ne (sys : Sys) (d : AppDecl) (args : List CallArg)
    (j : Nat) (h : j ≠ sys.nextId) :
    (callApp sys d args).1.records j = sys.records j := by
  by_cases hs : d.skip <;> simp [callApp, hs, insertRecord, newRecord, h]

theorem callApp_qstate (sys : Sys) (d : AppDecl) (args : List CallArg) :
    (callApp sys d args).1.qstate = sys.qstate := by
  by_cases hs : d.skip <;> simp [callApp, hs, insertRecord, newRecord]

theorem callApp_cache (sys : Sys) (d : AppDecl) (args : List CallArg) :
    (callApp sys d args).1.cache = sys.cache := by
  by_cases hs : d.skip <;> simp [callApp, hs, insertRecord, newRecord]

theorem finishOkSys_records_eq (sys : Sys) (i : Nat) (payload outS : String)
    (r0 : TaskRecord) (h0 : sys.records i = some r0) :
    (finishOkSys sys i payload outS).records =
      (updateRecord sys i fun r' =>
        { r' with state := .SUCCEEDED, errno := 0, out := outS
                  result_ref := some r'.fingerprint }).records := by
  simp [finishOkSys, h0]

/-- Case split for a record lookup across an `updateRecord`. -/
theorem update_case {sys : Sys} {i0 i : Nat} {f : TaskRecord → TaskRecord}
    {r r' : TaskRecord} (hr : sys.records i = some r)
    (hr' : (updateRecord sys i0 f).records i = some r') :
    (i ≠ i0 ∧ r' = r) ∨ (i = i0 ∧ r' = f r) := by
  by_cases hii : i = i0
  · subst hii
    right
    refine ⟨rfl, ?_⟩
    rw [updateRecord_records_self, hr] at hr'
    simpa using hr'.symm
  · left
    refine ⟨hii, ?_⟩
    rw [updateRecord_records_ne sys i0 i f hii, hr] at hr'
    exact (Option.some.inj hr').symm

/-- **C5** — `retry` with a given state `S` moves every record currently in
state `S` back to PENDING with its terminal fields (`errno`, `out`, `err`)
and `result_ref` cleared, leaves every record in a state other than `S`
unchanged, and touches nothing else (queue state, cache, id counter). -/
theorem retry_moves_exactly_state_records (sys : Sys) (S : TState) (i : Nat) :
    (∀ r, sys.records i = some r → r.state = S →
      (retrySys sys S).records i = some (clearedPending r))
    ∧ (∀ r, sys.records i = some r → r.state ≠ S →
      (retrySys sys S).records i = some r)
    ∧ (sys.records i = none → (retrySys sys S).records i = none)
    ∧ (retrySys sys S).qstate = sys.qstate
    ∧ (retrySys sys S).cache = sys.cache
    ∧ (retrySys sys S).nextId = sys.nextId := by
  refine ⟨?_, ?_, ?_, rfl, rfl, rfl⟩
  · intro r hr hst
    simp [retrySys, hr, hst, clearedPending]
  · intro r hr hst
    simp [retrySys, hr, hst]
  · intro h
    simp [retrySys, h]

/-- Witness for C5: retrying the SUCCEEDED records of the sample system
moves its single SUCCEEDED record to cleared PENDING. -/
theorem retry_moves_exactly_state_records_witness :
    (retrySys sampleSys .SUCCEEDED).records 0 = some (clearedPending sampleRecord) :=
  (retry_moves_exactly_state_records sampleSys .SUCCEEDED 0).1 sampleRecord rfl rfl

/-- **C7** — a task declared with `skip` is not enqueued: the call leaves
the system unchanged and returns a null future, so the task participates
in no dependency graph (there is no future to embed in any later call and
no record to depend on). -/
theorem skip_returns_null_future (sys : Sys) (d : AppDecl)
    (args : List CallArg) (h : d.skip = true) :
    callApp sys d args = (sys, none) := by
  simp [callApp, h]

/-- Witness for C7: calling the skipped sample app on the sample system
returns the system unchanged and a null future. -/
theorem skip_returns_null_future_witness :
    callApp sampleSys skippedEcho2 [] = (sampleSys, none) :=
  skip_returns_null_future sampleSys skippedEcho2 [] rfl

/-- **C3** — for every engine transition and every task record present
before and after it whose state changed: the change is one of the DAG
edges `WAITING → PENDING → RUNNING → {SUCCEEDED, FAILED, KILLED}` with
`UNKNOWN` only out of `RUNNING` (and only by the liveness-loss sweep); a
record leaves `WAITING` only when every `dep_ids` entry is SUCCEEDED; and
a record enters `RUNNING` only from `PENDING` with every dependency
SUCCEEDED, so no task ever runs before all its declared dependencies have
SUCCEEDED.  (The administrative `retry` command, which deliberately
re-opens terminal records, is a separate store operation `retrySys` and
not an engine transition.) -/
theorem state_transitions_form_dag (sys sys' : Sys) (l : Label) (i : Nat)
    (r r' : TaskRecord) (hstep : Step sys l sys') (hfresh : FreshIds sys)
    (hr : sys.records i = some r) (hr' : sys'.records i = some r')
    (hne : r.state ≠ r'.state) :
    allowedEdge r.state r'.state = true
    ∧ (r.state = .WAITING →
        r'.state = .PENDING ∧ depsSucceeded sys r.dep_ids = true)
    ∧ (r'.state = .RUNNING →
        r.state = .PENDING ∧ depsSucceeded sys r.dep_ids = true)
    ∧ (r'.state = .UNKNOWN → r.state = .RUNNING ∧ l = .lost i) := by
  cases hstep with
  | enq d args =>
    exfalso
    have hi : i ≠ sys.nextId := by
      intro h
      rw [h, hfresh sys.nextId (Nat.le_refl _)] at hr
      exact Option.noConfusion hr
    rw [callApp_records_ne sys d args i hi, hr] at hr'
    exact hne (congrArg TaskRecord.state (Option.some.inj hr'))
  | promote i0 r0 h0 hW hdeps =>
    simp only [setState] at hr'
    rcases update_case hr hr' with ⟨hii, rfl⟩ | ⟨rfl, rfl⟩
    · exact absurd rfl hne
    · have hr0 : r0 = r := Option.some.inj (h0.symm.trans hr)
      subst hr0
      refine ⟨?_, fun _ => ⟨rfl, hdeps⟩, ?_, ?_⟩
      · rw [hW]
        rfl
      · intro h
        exact absurd h (by simp)
      · intro h
        exact absurd h (by simp)
  | claim i0 r0 hq h0 hP hdeps =>
    simp only [setState] at hr'
    rcases update_case hr hr' with ⟨hii, rfl⟩ | ⟨rfl, rfl⟩
    · exact absurd rfl hne
    · have hr0 : r0 = r := Option.some.inj (h0.symm.trans hr)
      subst hr0
      refine ⟨?_, ?_, fun _ => ⟨hP, hdeps⟩, ?_⟩
      · rw [hP]
        rfl
      · intro h
        rw [hP] at h
        exact absurd h (by simp)
      · intro h
        exact absurd h (by simp)
  | finishOk i0 r0 payload outS h0 hR =>
    rw [finishOkSys_records_eq sys i0 payload outS r0 h0] at hr'
    rcases update_case hr hr' with ⟨hii, rfl⟩ | ⟨rfl, rfl⟩
    · exact absurd rfl hne
    · have hr0 : r0 = r := Option.some.inj (h0.symm.trans hr)
      subst hr0
      refine ⟨?_, ?_, ?_, ?_⟩
      · rw [hR]
        rfl
      · intro h
        rw [hR] at h
        exact absurd h (by simp)
      · intro h
        exact absurd h (by simp)
      · intro h
        exact absurd h (by simp)
  | finishBash i0 r0 o h0 hR hk hb =>
    rw [finishOkSys_records_eq sys i0 o o r0 h0] at hr'
    rcases update_case hr hr' with ⟨hii, rfl⟩ | ⟨rfl, rfl⟩
    · exact absurd rfl hne
    · have hr0 : r0 = r := Option.some.inj (h0.symm.trans hr)
      subst hr0
      refine ⟨?_, ?_, ?_, ?_⟩
      · rw [hR]
        rfl
      · intro h
        rw [hR] at h
        exact absurd h (by simp)
      · intro h
        exact absurd h (by simp)
      · intro h
        exact absurd h (by simp)
  | finishFail i0 r0 e errS outS h0 hR he =>
    simp only [finishFailSys] at hr'
    rcases update_case hr hr' with ⟨hii, rfl⟩ | ⟨rfl, rfl⟩
    · exact absurd rfl hne
    · have hr0 : r0 = r := Option.some.inj (h0.symm.trans hr)
      subst hr0
      refine ⟨?_, ?_, ?_, ?_⟩
      · rw [hR]
        rfl
      · intro h
        rw [hR] at h
        exact absurd h (by simp)
      · intro h
        exact absurd h (by simp)
      · intro h
        exact absurd h (by simp)
  | kill i0 r0 errS h0 hR =>
    simp only [killSys] at hr'
    rcases update_case hr hr' with ⟨hii, rfl⟩ | ⟨rfl, rfl⟩
    · exact absurd rfl hne
    · have hr0 : r0 = r := Option.some.inj (h0.symm.trans hr)
      subst hr0
      refine ⟨?_, ?_, ?_, ?_⟩
      · rw [hR]
        rfl
      · intro h
        rw [hR] at h
        exact absurd h (by simp)
      · intro h
        exact absurd h (by simp)
      · intro h
        exact absurd h (by simp)
  | lost i0 r0 h0 hR =>
    simp only [lostSys] at hr'
    rcases update_case hr hr' with ⟨hii, rfl⟩ | ⟨rfl, rfl⟩
    · exact absurd rfl hne
    · have hr0 : r0 = r := Option.some.inj (h0.symm.trans hr)
      subst hr0
      refine ⟨?_, ?_, ?_, fun _ => ⟨hR, rfl⟩⟩
      · rw [hR]
        rfl
      · intro h
        rw [hR] at h
        exact absurd h (by simp)
      · intro h
        exact absurd h (by simp)
  | pause =>
    exfalso
    simp only [pauseSys] at hr'
    exact hne (congrArg TaskRecord.state (Option.some.inj (hr.symm.trans hr')))
  | resume =>
    exfalso
    simp only [resumeSys] at hr'
    exact hne (congrArg TaskRecord.state (Option.some.inj (hr.symm.trans hr')))

theorem callApp_records_self (sys : Sys) (d : AppDecl) (args : List CallArg)
    (hs : d.skip = false) :
    (callApp sys d args).1.records sys.nextId = some (newRecord sys d args) := by
  simp [callApp, hs, insertRecord, newRecord]

theorem callApp_future (sys : Sys) (d : AppDecl) (args : List CallArg)
    (hs : d.skip = false) :
    (callApp sys d args).2 =
      some { task_id := sys.nextId, fingerprint := taskFingerprint d args } := by
  simp [callApp, hs]

theorem callApp_nextId (sys : Sys) (d : AppDecl) (args : List CallArg)
    (hs : d.skip = false) :
    (callApp sys d args).1.nextId = sys.nextId + 1 := by
  simp [callApp, hs, insertRecord]

/-- A freshly appended record is never RUNNING. -/
theorem newRecord_state_ne_running (sys : Sys) (d : AppDecl)
    (args : List CallArg) : (newRecord sys d args).state ≠ .RUNNING := by
  simp only [newRecord, initialState]
  split_ifs <;> simp

/-- No step other than `resume` leaves the PAUSED queue state. -/
theorem step_qstate_stays_paused {sys sys' : Sys} {l : Label}
    (h : Step sys l sys') (hl : l ≠ .resume) (hp : sys.qstate = .PAUSED) :
    sys'.qstate = .PAUSED := by
  cases h with
  | enq d args => rw [callApp_qstate]; exact hp
  | promote i0 r0 h0 hW hdeps => exact hp
  | claim i0 r0 hq h0 hP hdeps => exact hp
  | finishOk i0 r0 payload outS h0 hR => simpa [finishOkSys, h0] using hp
  | finishBash i0 r0 o h0 hR hk hb => simpa [finishOkSys, h0] using hp
  | finishFail i0 r0 e errS outS h0 hR he => exact hp
  | kill i0 r0 errS h0 hR => exact hp
  | lost i0 r0 h0 hR => exact hp
  | pause => rfl
  | resume => exact absurd rfl hl

/-- A record-level update whose result is never RUNNING creates no new
RUNNING record. -/
theorem update_no_new_running {sys : Sys} {i0 i : Nat}
    {f : TaskRecord → TaskRecord} (hfr : ∀ r, (f r).state ≠ .RUNNING)
    {r' : TaskRecord} (hr' : (updateRecord sys i0 f).records i = some r')
    (hrun : r'.state = .RUNNING) :
    ∃ r, sys.records i = some r ∧ r.state = .RUNNING := by
  by_cases hi : i = i0
  · subst hi
    rw [updateRecord_records_self] at hr'
    cases hrec : sys.records i with
    | none =>
      rw [hrec] at hr'
      exact Option.noConfusion hr'
    | some r0 =>
      rw [hrec] at hr'
      simp only [Option.map_some'] at hr'
      rw [← Option.some.inj hr'] at hrun
      exact absurd hrun (hfr r0)
  · rw [updateRecord_records_ne _ _ _ _ hi] at hr'
    exact ⟨r', hr', hrun⟩

/-- While the queue is PAUSED, no single step makes any record newly
RUNNING. -/
theorem step_no_new_running {sys sys' : Sys} {l : Label}
    (h : Step sys l sys') (hp : sys.qstate = .PAUSED) (i : Nat)
    (r' : TaskRecord) (hr' : sys'.records i = some r')
    (hrun : r'.state = .RUNNING) :
    ∃ r, sys.records i = some r ∧ r.state = .RUNNING := by
  cases h with
  | enq d args =>
    by_cases hs : d.skip
    · simp only [callApp, hs, if_pos] at hr'
      exact ⟨r', hr', hrun⟩
    · have hs' : d.skip = false := by simpa using hs
      by_cases hi : i = sys.nextId
      · subst hi
        rw [callApp_records_self sys d args hs'] at hr'
        rw [← Option.some.inj hr'] at hrun
        exact absurd hrun (newRecord_state_ne_running sys d args)
      · rw [callApp_records_ne sys d args i hi] at hr'
        exact ⟨r', hr', hrun⟩
  | promote i0 r0 h0 hW hdeps =>
    simp only [setState] at hr'
    exact update_no_new_running (fun r => by simp) hr' hrun
  | claim i0 r0 hq h0 hP hdeps =>
    exact absurd (hq.symm.trans hp) (by simp)
  | finishOk i0 r0 payload outS h0 hR =>
    rw [finishOkSys_records_eq sys i0 payload outS r0 h0] at hr'
    exact update_no_new_running (fun r => by simp) hr' hrun
  | finishBash i0 r0 o h0 hR hk hb =>
    rw [finishOkSys_records_eq sys i0 o o r0 h0] at hr'
    exact update_no_new_running (fun r => by simp) hr' hrun
  | finishFail i0 r0 e errS outS h0 hR he =>
    simp only [finishFailSys] at hr'
    exact update_no_new_running (fun r => by simp) hr' hrun
  | kill i0 r0 errS h0 hR =>
    simp only [killSys] at hr'
    exact update_no_new_running (fun r => by simp) hr' hrun
  | lost i0 r0 h0 hR =>
    simp only [lostSys] at hr'
    exact update_no_new_running (fun r => by simp) hr' hrun
  | pause =>
    exact ⟨r', by simpa [pauseSys] using hr', hrun⟩
  | resume =>
    exact ⟨r', by simpa [resumeSys] using hr', hrun⟩

/-- While the queue is PAUSED and no `resume` occurs, a trace performs no
`claim`, creates no new RUNNING record, and stays PAUSED. -/
theorem steps_paused_aux {sys sys' : Sys} {ls : List Label}
    (hsteps : Steps sys ls sys') (hp : sys.qstate = .PAUSED)
    (hnores : Label.resume ∉ ls) :
    (∀ i, Label.claim i ∉ ls)
    ∧ (∀ i r', sys'.records i = some r' → r'.state = .RUNNING →
        ∃ r, sys.records i = some r ∧ r.state = .RUNNING)
    ∧ sys'.qstate = .PAUSED := by
  induction hsteps with
  | nil s =>
    exact ⟨fun i => List.not_mem_nil _,
      fun i r' hr' hrun => ⟨r', hr', hrun⟩, hp⟩
  | cons hstep hrest ih =>
    rename_i sysA sysB sysC l ls
    have hlne : l ≠ Label.resume := by
      intro h
      rw [h] at hnores
      exact hnores (List.mem_cons_self _ _)
    have htail : Label.resume ∉ ls := fun hm =>
      hnores (List.mem_cons_of_mem _ hm)
    have hp1 : sysB.qstate = .PAUSED := step_qstate_stays_paused hstep hlne hp
    obtain ⟨ihc, ihr, ihq⟩ := ih hp1 htail
    refine ⟨?_, ?_, ihq⟩
    · intro i hm
      rcases List.mem_cons.mp hm with heq | hm'
      · rw [← heq] at hstep
        cases hstep with
        | claim i0 r0 hq h0 hP hdeps =>
          exact absurd (hq.symm.trans hp) (by simp)
      · exact ihc i hm'
    · intro i r' hr' hrun
      obtain ⟨r1, hr1, hrun1⟩ := ihr i r' hr' hrun
      exact step_no_new_running hstep hp i r1 hr1 hrun1

/-- **C6** — after `pause` returns, and until a `resume` occurs, no engine
trace performs any `claim` (the only transition into RUNNING), no record
becomes newly RUNNING (any record RUNNING afterwards was already RUNNING
when `pause` returned), the queue stays PAUSED; and workers already
running their current task may still finish it (the finalization step
stays enabled on every RUNNING record). -/
theorem pause_stops_new_running (sys0 sys' : Sys) (ls : List Label)
    (hsteps : Steps (pauseSys sys0) ls sys')
    (hnores : Label.resume ∉ ls) :
    (∀ i, Label.claim i ∉ ls)
    ∧ (∀ i r', sys'.records i = some r' → r'.state = .RUNNING →
        ∃ r, sys0.records i = some r ∧ r.state = .RUNNING)
    ∧ sys'.qstate = .PAUSED
    ∧ (∀ i r payload outS, sys0.records i = some r → r.state = .RUNNING →
        Step (pauseSys sys0) (.finishOk i payload outS)
          (finishOkSys (pauseSys sys0) i payload outS)) := by
  obtain ⟨hc, hr, hq⟩ := steps_paused_aux hsteps rfl hnores
  exact ⟨hc, hr, hq,
    fun i r payload outS h0 hR => Step.finishOk (pauseSys sys0) i r payload outS h0 hR⟩

theorem finishOkSys_cache_eq (sys : Sys) (i : Nat) (payload outS : String)
    (r0 : TaskRecord) (h0 : sys.records i = some r0) :
    (finishOkSys sys i payload outS).cache =
      cachePut sys.cache r0.fingerprint payload := by
  simp [finishOkSys, h0]

theorem finishOkSys_nextId_eq (sys : Sys) (i : Nat) (payload outS : String)
    (r0 : TaskRecord) (h0 : sys.records i = some r0) :
    (finishOkSys sys i payload outS).nextId = sys.nextId := by
  simp [finishOkSys, h0]

theorem finishOkSys_qstate_eq (sys : Sys) (i : Nat) (payload outS : String)
    (r0 : TaskRecord) (h0 : sys.records i = some r0) :
    (finishOkSys sys i payload outS).qstate = sys.qstate := by
  simp [finishOkSys, h0]

/-- Record updates preserve id freshness. -/
theorem updateRecord_fresh {sys : Sys} {i : Nat} {f : TaskRecord → TaskRecord}
    (hf : FreshIds sys) : FreshIds (updateRecord sys i f) := by
  intro n hn
  have h0 : sys.records n = none := hf n hn
  by_cases hni : n = i
  · subst hni
    rw [updateRecord_records_self, h0]
    rfl
  · rw [updateRecord_records_ne _ _ _ _ hni]
    exact h0

/-- Every engine step preserves id freshness. -/
theorem step_preserves_fresh {sys sys' : Sys} {l : Label}
    (h : Step sys l sys') (hf : FreshIds sys) : FreshIds sys' := by
  cases h with
  | enq d args =>
    by_cases hs : d.skip
    · have heq : (callApp sys d args).1 = sys := by simp [callApp, hs]
      rw [heq]
      exact hf
    · have hs' : d.skip = false := by simpa using hs
      intro n hn
      rw [callApp_nextId sys d args hs'] at hn
      have hne : n ≠ sys.nextId := by omega
      rw [callApp_records_ne sys d args n hne]
      exact hf n (by omega)
  | promote i0 r0 h0 hW hdeps => exact updateRecord_fresh hf
  | claim i0 r0 hq h0 hP hdeps => exact updateRecord_fresh hf
  | finishOk i0 r0 payload outS h0 hR =>
    intro n hn
    rw [finishOkSys_nextId_eq sys i0 payload outS r0 h0] at hn
    rw [finishOkSys_records_eq sys i0 payload outS r0 h0]
    exact updateRecord_fresh hf n hn
  | finishBash i0 r0 o h0 hR hk hb =>
    intro n hn
    rw [finishOkSys_nextId_eq sys i0 o o r0 h0] at hn
    rw [finishOkSys_records_eq sys i0 o o r0 h0]
    exact updateRecord_fresh hf n hn
  | finishFail i0 r0 e errS outS h0 hR he => exact updateRecord_fresh hf
  | kill i0 r0 errS h0 hR => exact updateRecord_fresh hf
  | lost i0 r0 h0 hR => exact updateRecord_fresh hf
  | pause => exact hf
  | resume => exact hf

/-- A SUCCEEDED record is untouched by every engine step. -/
theorem step_keeps_succeeded {sys sys' : Sys} {l : Label}
    (h : Step sys l sys') (hf : FreshIds sys) {i : Nat} {r : TaskRecord}
    (hr : sys.records i = some r) (hst : r.state = .SUCCEEDED) :
    sys'.records i = some r := by
  cases h with
  | enq d args =>
    have hi : i ≠ sys.nextId := by
      intro hh
      rw [hh, hf sys.nextId (Nat.le_refl _)] at hr
      exact Option.noConfusion hr
    rw [callApp_records_ne sys d args i hi]
    exact hr
  | promote i0 r0 h0 hW hdeps =>
    simp only [setState]
    by_cases hi : i = i0
    · subst hi
      have h00 : r0 = r := Option.some.inj (h0.symm.trans hr)
      subst h00
      exact absurd (hst.symm.trans hW) (by simp)
    · rw [updateRecord_records_ne _ _ _ _ hi]
      exact hr
  | claim i0 r0 hq h0 hP hdeps =>
    simp only [setState]
    by_cases hi : i = i0
    · subst hi
      have h00 : r0 = r := Option.some.inj (h0.symm.trans hr)
      subst h00
      exact absurd (hst.symm.trans hP) (by simp)
    · rw [updateRecord_records_ne _ _ _ _ hi]
      exact hr
  | finishOk i0 r0 payload outS h0 hR =>
    rw [finishOkSys_records_eq sys i0 payload outS r0 h0]
    by_cases hi : i = i0
    · subst hi
      have h00 : r0 = r := Option.some.inj (h0.symm.trans hr)
      subst h00
      exact absurd (hst.symm.trans hR) (by simp)
    · rw [updateRecord_records_ne _ _ _ _ hi]
      exact hr
  | finishBash i0 r0 o h0 hR hk hb =>
    rw [finishOkSys_records_eq sys i0 o o r0 h0]
    by_cases hi : i = i0
    · subst hi
      have h00 : r0 = r := Option.some.inj (h0.symm.trans hr)
      subst h00
      exact absurd (hst.symm.trans hR) (by simp)
    · rw [updateRecord_records_ne _ _ _ _ hi]
      exact hr
  | finishFail i0 r0 e errS outS h0 hR he =>
    simp only [finishFailSys]
    by_cases hi : i = i0
    · subst hi
      have h00 : r0 = r := Option.some.inj (h0.symm.trans hr)
      subst h00
      exact absurd (hst.symm.trans hR) (by simp)
    · rw [updateRecord_records_ne _ _ _ _ hi]
      exact hr
  | kill i0 r0 errS h0 hR =>
    simp only [killSys]
    by_cases hi : i = i0
    · subst hi
      have h00 : r0 = r := Option.some.inj (h0.symm.trans hr)
      subst h00
      exact absurd (hst.symm.trans hR) (by simp)
    · rw [updateRecord_records_ne _ _ _ _ hi]
      exact hr
  | lost i0 r0 h0 hR =>
    simp only [lostSys]
    by_cases hi : i = i0
    · subst hi
      have h00 : r0 = r := Option.some.inj (h0.symm.trans hr)
      subst h00
      exact absurd (hst.symm.trans hR) (by simp)
    · rw [updateRecord_records_ne _ _ _ _ hi]
      exact hr
  | pause => exact hr
  | resume => exact hr

/-- A record that is SUCCEEDED is never claimed in any later trace: no
worker ever executes it. -/
theorem steps_no_claim_on_succeeded {sys sys' : Sys} {ls : List Label}
    (hsteps : Steps sys ls sys') (hf : FreshIds sys) {i : Nat}
    {r : TaskRecord} (hr : sys.records i = some r)
    (hst : r.state = .SUCCEEDED) : Label.claim i ∉ ls := by
  induction hsteps with
  | nil s => exact List.not_mem_nil _
  | cons hstep hrest ih =>
    rename_i sysA sysB sysC l ls
    intro hm
    rcases List.mem_cons.mp hm with heq | hm'
    · rw [← heq] at hstep
      cases hstep with
      | claim i0 r0 hq h0 hP hdeps =>
        have h00 : r0 = r := Option.some.inj (h0.symm.trans hr)
        subst h00
        exact absurd (hst.symm.trans hP) (by simp)
    · exact ih (step_preserves_fresh hstep hf)
        (step_keeps_succeeded hstep hf hr hst) hm'

/-- Witness for C6: a concrete paused trace in which the single RUNNING
record finishes: the trace contains no claim and the queue stays
PAUSED. -/
theorem pause_stops_new_running_witness :
    Label.claim 0 ∉ [Label.finishOk 0 "0.786" ""]
    ∧ (finishOkSys (pauseSys runningSys) 0 "0.786" "").qstate = .PAUSED := by
  have hstep : Step (pauseSys runningSys) (.finishOk 0 "0.786" "")
      (finishOkSys (pauseSys runningSys) 0 "0.786" "") :=
    Step.finishOk (pauseSys runningSys) 0 runningRecord "0.786" "" rfl rfl
  have h := pause_stops_new_running runningSys
      (finishOkSys (pauseSys runningSys) 0 "0.786" "")
      [.finishOk 0 "0.786" ""]
      (Steps.cons hstep (Steps.nil _)) (by decide)
  exact ⟨h.1 0, h.2.2.1⟩

/-- **C4** — `result()` blocks until the backing record is terminal: a
polling observation is `some` exactly when the record's state is terminal
(SUCCEEDED, FAILED or KILLED); on SUCCEEDED it returns the payload the
`result_ref` points at; on FAILED or KILLED it surfaces `TaskFailed`
carrying the captured `err` (a worker failure is a FAILED record observed
through the future, never a propagated exception); and polling a trace of
system states returns nothing while no state is terminal, and the first
terminal observation otherwise. -/
theorem result_surfaces_terminal_states :
    (∀ (sys : Sys) (f : Future) (r : TaskRecord),
      sys.records f.task_id = some r →
      ((observe sys f).isSome = terminalState r.state
       ∧ (∀ fp, r.state = .SUCCEEDED → r.result_ref = some fp →
           observe sys f = some (.ok (deref sys fp)))
       ∧ (r.state = .FAILED → observe sys f = some (.taskFailed r.err))
       ∧ (r.state = .KILLED → observe sys f = some (.taskFailed r.err))))
    ∧ (∀ (tr : List Sys) (f : Future),
        pollResult tr f = none ↔ ∀ s ∈ tr, observe s f = none)
    ∧ (∀ (tr1 : List Sys) (s : Sys) (tr2 : List Sys) (f : Future) (o : Outcome),
        (∀ s1 ∈ tr1, observe s1 f = none) → observe s f = some o →
        pollResult (tr1 ++ s :: tr2) f = some o) := by
  refine ⟨?_, ?_, ?_⟩
  · intro sys f r hr
    refine ⟨?_, ?_, ?_, ?_⟩
    · simp only [observe, hr]
      cases hst : r.state <;> simp [terminalState]
    · intro fp hS hrr
      simp [observe, hr, hS, hrr]
    · intro hF
      simp [observe, hr, hF]
    · intro hK
      simp [observe, hr, hK]
  · intro tr f
    induction tr with
    | nil => simp [pollResult]
    | cons s rest ih =>
      cases ho : observe s f <;>
        simp [pollResult, ho, ih, List.forall_mem_cons]
  · intro tr1 s tr2 f o h1 ho
    induction tr1 with
    | nil => simp [pollResult, ho]
    | cons s1 rest ih =>
      have h0 : observe s1 f = none := h1 s1 (List.mem_cons_self _ _)
      simp only [List.cons_append, pollResult, h0]
      exact ih fun x hx => h1 x (List.mem_cons_of_mem _ hx)

/-- Witness for C4: on the sample SUCCEEDED system the future resolves to
the cached payload, and on the sample FAILED system it surfaces
`TaskFailed` with the captured err. -/
theorem result_surfaces_terminal_states_witness :
    observe sampleSys { task_id := 0, fingerprint := "fp0" } =
      some (.ok (deref sampleSys "fp0"))
    ∧ observe failedSys { task_id := 0, fingerprint := "fp1" } =
      some (.taskFailed failedRecord.err) := by
  have h1 := result_surfaces_terminal_states.1 sampleSys
      { task_id := 0, fingerprint := "fp0" } sampleRecord rfl
  have h2 := result_surfaces_terminal_states.1 failedSys
      { task_id := 0, fingerprint := "fp1" } failedRecord rfl
  exact ⟨h1.2.1 "fp0" rfl rfl, h2.2.2.1 rfl⟩

/-- An enqueue leaves previously satisfied dependencies satisfied. -/
theorem depsSucceeded_callApp (sys : Sys) (d : AppDecl) (args : List CallArg)
    (hf : FreshIds sys) (deps : List Nat)
    (hd : depsSucceeded sys deps = true) :
    depsSucceeded (callApp sys d args).1 deps = true := by
  rw [depsSucceeded, List.all_eq_true] at *
  intro x hx
  have hds := hd x hx
  rw [depSucceeded] at *
  cases hrec : sys.records x with
  | none =>
    rw [hrec] at hds
    exact Bool.noConfusion hds
  | some rx =>
    have hxne : x ≠ sys.nextId := by
      intro hh
      rw [hh, hf sys.nextId (Nat.le_refl _)] at hrec
      exact Option.noConfusion hrec
    rw [callApp_records_ne sys d args x hxne, hrec]
    rw [hrec] at hds
    exact hds

/-- **C1** — (a) a task enqueued while the result cache already holds its
fingerprint is inserted directly in state SUCCEEDED with `result_ref`
pointing at the cached payload, and its future immediately resolves to
that payload; (b) enqueuing a task, running it to completion, and
enqueuing a task with the same fingerprint again yields a trace with
exactly one worker claim, the second record inserted SUCCEEDED, both
futures resolving to the first execution's payload, and the second record
never claimed by any continuation of the trace: exactly one worker
execution occurs. -/
theorem enqueue_cache_hit_short_circuits :
    (∀ (sys : Sys) (d : AppDecl) (args : List CallArg) (payload : String),
      d.skip = false →
      sys.cache (taskFingerprint d args) = some payload →
      (callApp sys d args).2 =
        some { task_id := sys.nextId, fingerprint := taskFingerprint d args }
      ∧ ∃ r, (callApp sys d args).1.records sys.nextId = some r
          ∧ r.state = .SUCCEEDED
          ∧ r.result_ref = some (taskFingerprint d args)
          ∧ observe (callApp sys d args).1
              { task_id := sys.nextId, fingerprint := taskFingerprint d args } =
              some (.ok payload))
    ∧ (∀ (sys : Sys) (d : AppDecl) (args : List CallArg) (payload outS : String),
      FreshIds sys → sys.qstate = .ACTIVE → d.skip = false →
      sys.cache (taskFingerprint d args) = none →
      depsSucceeded sys ((depFutures args).map Future.task_id) = true →
      Steps sys
        [.enq d args, .claim sys.nextId, .finishOk sys.nextId payload outS,
         .enq d args]
        (callApp (runToCompletion sys d args payload outS) d args).1
      ∧ [Label.enq d args, .claim sys.nextId,
         .finishOk sys.nextId payload outS, .enq d args].countP isClaim = 1
      ∧ (callApp (runToCompletion sys d args payload outS) d args).2 =
          some { task_id := sys.nextId + 1
                 fingerprint := taskFingerprint d args }
      ∧ observe (callApp (runToCompletion sys d args payload outS) d args).1
          { task_id := sys.nextId + 1, fingerprint := taskFingerprint d args } =
          some (.ok payload)
      ∧ observe (callApp (runToCompletion sys d args payload outS) d args).1
          { task_id := sys.nextId, fingerprint := taskFingerprint d args } =
          some (.ok payload)
      ∧ ∀ (ls : List Label) (s5 : Sys),
          Steps (callApp (runToCompletion sys d args payload outS) d args).1 ls s5 →
          Label.claim (sys.nextId + 1) ∉ ls) := by
  constructor
  · intro sys d args payload hs hcache
    have hhas : cacheHas sys.cache (taskFingerprint d args) = true := by
      simp [cacheHas, hcache]
    refine ⟨callApp_future sys d args hs, newRecord sys d args,
      callApp_records_self sys d args hs, ?_, ?_, ?_⟩
    · simp [newRecord, initialState, hhas]
    · simp [newRecord, initialState, hhas]
    · simp [observe, callApp_records_self sys d args hs, newRecord,
        initialState, hhas, deref, callApp_cache, hcache]
  · intro sys d args payload outS hf hact hs hmiss hdeps
    have hno : cacheHas sys.cache (taskFingerprint d args) = false := by
      simp [cacheHas, hmiss]
    -- step 1: the first enqueue appends a PENDING record
    have hr1 : (callApp sys d args).1.records sys.nextId =
        some (newRecord sys d args) := callApp_records_self sys d args hs
    have hr1state : (newRecord sys d args).state = .PENDING := by
      simp [newRecord, initialState, hno, hdeps]
    have hq1 : (callApp sys d args).1.qstate = .ACTIVE :=
      (callApp_qstate sys d args).trans hact
    have hdeps1 : depsSucceeded (callApp sys d args).1
        (newRecord sys d args).dep_ids = true :=
      depsSucceeded_callApp sys d args hf
        ((depFutures args).map Future.task_id) hdeps
    have step2 : Step (callApp sys d args).1 (.claim sys.nextId)
        (setState (callApp sys d args).1 sys.nextId .RUNNING) :=
      Step.claim (callApp sys d args).1 sys.nextId (newRecord sys d args)
        hq1 hr1 hr1state hdeps1
    -- step 2: the claim moves it RUNNING
    have hr2 : (setState (callApp sys d args).1 sys.nextId .RUNNING).records
        sys.nextId = some { newRecord sys d args with state := .RUNNING } := by
      simp only [setState]
      rw [updateRecord_records_self, hr1]
      rfl
    have step3 : Step (setState (callApp sys d args).1 sys.nextId .RUNNING)
        (.finishOk sys.nextId payload outS)
        (runToCompletion sys d args payload outS) :=
      Step.finishOk _ sys.nextId { newRecord sys d args with state := .RUNNING }
        payload outS hr2 rfl
    -- step 3: finalization caches the payload
    have hr3 : (runToCompletion sys d args payload outS).records sys.nextId =
        some { newRecord sys d args with
          state := .SUCCEEDED, errno := 0,
          out := outS, result_ref := some (taskFingerprint d args) } := by
      rw [runToCompletion,
        finishOkSys_records_eq _ sys.nextId payload outS _ hr2,
        updateRecord_records_self, hr2]
      rfl
    have hc1 : (callApp sys d args).1.cache (taskFingerprint d args) = none := by
      rw [callApp_cache]
      exact hmiss
    have hcache3 : (runToCompletion sys d args payload outS).cache
        (taskFingerprint d args) = some payload := by
      rw [runToCompletion, finishOkSys_cache_eq _ sys.nextId payload outS _ hr2]
      simp [cachePut, setState, updateRecord, newRecord, hc1]
    have hnext3 : (runToCompletion sys d args payload outS).nextId =
        sys.nextId + 1 := by
      rw [runToCompletion, finishOkSys_nextId_eq _ sys.nextId payload outS _ hr2]
      exact callApp_nextId sys d args hs
    have hhas3 : cacheHas (runToCompletion sys d args payload outS).cache
        (taskFingerprint d args) = true := by
      simp [cacheHas, hcache3]
    -- step 4: the second enqueue hits the cache
    have hrB : (callApp (runToCompletion sys d args payload outS) d args).1.records
        (sys.nextId + 1) =
        some (newRecord (runToCompletion sys d args payload outS) d args) := by
      rw [← hnext3]
      exact callApp_records_self _ d args hs
    have hrBstate :
        (newRecord (runToCompletion sys d args payload outS) d args).state =
          .SUCCEEDED := by
      simp [newRecord, initialState, hhas3]
    have hrBref :
        (newRecord (runToCompletion sys d args payload outS) d args).result_ref =
          some (taskFingerprint d args) := by
      simp [newRecord, initialState, hhas3]
    have hcache4 :
        (callApp (runToCompletion sys d args payload outS) d args).1.cache
          (taskFingerprint d args) = some payload := by
      rw [callApp_cache]
      exact hcache3
    have hiB : sys.nextId ≠ (runToCompletion sys d args payload outS).nextId := by
      rw [hnext3]
      omega
    refine ⟨?_, ?_, ?_, ?_, ?_, ?_⟩
    · exact Steps.cons (Step.enq sys d args) (Steps.cons step2
        (Steps.cons step3 (Steps.cons (Step.enq _ d args) (Steps.nil _))))
    · simp [List.countP_cons, isClaim]
    · rw [callApp_future _ d args hs, hnext3]
    · simp [observe, hrB, hrBstate, hrBref, deref, hcache4]
    · have hrA : (callApp (runToCompletion sys d args payload outS) d args).1.records
          sys.nextId =
          some { newRecord sys d args with
            state := .SUCCEEDED, errno := 0,
            out := outS, result_ref := some (taskFingerprint d args) } := by
        rw [callApp_records_ne _ d args sys.nextId hiB]
        exact hr3
      simp [observe, hrA, deref, hcache4]
    · intro ls s5 hsteps5
      have hf4 : FreshIds (callApp (runToCompletion sys d args payload outS) d args).1 :=
        step_preserves_fresh (Step.enq _ d args)
          (step_preserves_fresh step3
            (step_preserves_fresh step2
              (step_preserves_fresh (Step.enq sys d args) hf)))
      exact steps_no_claim_on_succeeded hsteps5 hf4 hrB hrBstate

/-- Witness for C1: on an empty queue, enqueue the sample fraction app,
run it to completion with payload "0.786", enqueue it again: the second
future resolves to "0.786" without a second execution. -/
theorem enqueue_cache_hit_short_circuits_witness :
    observe (callApp (runToCompletion emptySys fractionDecl [] "0.786" "")
        fractionDecl []).1
      { task_id := 1, fingerprint := taskFingerprint fractionDecl [] } =
      some (.ok "0.786") := by
  have h := enqueue_cache_hit_short_circuits.2 emptySys fractionDecl []
      "0.786" "" (fun n _ => rfl) rfl rfl rfl rfl
  exact h.2.2.2.1

/-- **C2** — the fingerprint of a task declared with `name = True` (or
`name = "alias"`) omits the `code_blob`: it is computed from the alias
(and the resolved args and dependency fingerprints) only, so two
declarations bearing the same name get the same fingerprint for the same
args whatever their source text; consequently a call on a named
declaration whose fingerprint is already cached rebinds: it is inserted
SUCCEEDED and its future resolves to the previously computed payload. -/
theorem named_task_rebinds :
    (∀ (d : AppDecl) (args : List CallArg) (blob a : String),
      d.name = some a →
      taskFingerprint { d with code_blob := blob } args =
        taskFingerprint d args)
    ∧ (∀ (d d' : AppDecl) (a : String) (args : List CallArg) (sys : Sys)
        (payload : String),
      d.name = some a → d'.name = some a → d'.skip = false →
      sys.cache (taskFingerprint d args) = some payload →
      taskFingerprint d' args = taskFingerprint d args
      ∧ ∃ f r, (callApp sys d' args).2 = some f
          ∧ (callApp sys d' args).1.records f.task_id = some r
          ∧ r.state = .SUCCEEDED
          ∧ observe (callApp sys d' args).1 f = some (.ok payload)) := by
  constructor
  · intro d args blob a hname
    simp [taskFingerprint, fingerprint, hname]
  · intro d d' a args sys payload hname hname' hs hcache
    have hfp : taskFingerprint d' args = taskFingerprint d args := by
      simp [taskFingerprint, fingerprint, hname, hname']
    have hcache' : sys.cache (taskFingerprint d' args) = some payload := by
      rw [hfp]
      exact hcache
    have hhas : cacheHas sys.cache (taskFingerprint d' args) = true := by
      simp [cacheHas, hcache']
    refine ⟨hfp, { task_id := sys.nextId, fingerprint := taskFingerprint d' args },
      newRecord sys d' args, callApp_future sys d' args hs,
      callApp_records_self sys d' args hs, ?_, ?_⟩
    · simp [newRecord, initialState, hhas]
    · simp [observe, callApp_records_self sys d' args hs, newRecord,
        initialState, hhas, deref, callApp_cache, hcache']

/-- Witness for C2: the two sample named declarations (same alias,
different source texts) share a fingerprint, and the call on the second
rebinds to the cached payload of the first. -/
theorem named_task_rebinds_witness :
    taskFingerprint namedDeclB [] = taskFingerprint namedDeclA []
    ∧ ∃ f, (callApp namedCacheSys namedDeclB []).2 = some f
        ∧ observe (callApp namedCacheSys namedDeclB []).1 f =
            some (.ok "0.786") := by
  have h := named_task_rebinds.2 namedDeclA namedDeclB "fraction" []
      namedCacheSys "0.786" rfl rfl rfl (by simp [namedCacheSys])
  obtain ⟨hfp, f, r, h1, h2, h3, h4⟩ := h
  exact ⟨hfp, f, h1, h4⟩

/-- **C8** — a bash task enqueued with argv `['echo', '-n', s]` and run to
completion captures its stdout verbatim: `future.out()` is exactly `s`;
and the formatted argument `'pi ~ ' + '{:.4f}'.format(pi)` — `pi` being
the session's Monte-Carlo estimate 3.1421 whose capture the example
records — is exactly "pi ~ 3.1421". -/
theorem bash_app_captures_stdout :
    (∀ (sys : Sys) (d : AppDecl) (s : String),
      FreshIds sys → sys.qstate = .ACTIVE → d.skip = false →
      d.kind = .BASH_APP →
      sys.cache (taskFingerprint d
        [CallArg.scalar "echo", .scalar "-n", .scalar s]) = none →
      Steps sys
        [.enq d [CallArg.scalar "echo", .scalar "-n", .scalar s],
         .claim sys.nextId, .finishBash sys.nextId]
        (runToCompletion sys d
          [CallArg.scalar "echo", .scalar "-n", .scalar s] s s)
      ∧ observeOut
          (runToCompletion sys d
            [CallArg.scalar "echo", .scalar "-n", .scalar s] s s)
          { task_id := sys.nextId
            fingerprint := taskFingerprint d
              [CallArg.scalar "echo", .scalar "-n", .scalar s] } = some s)
    ∧ "pi ~ " ++ format4f piEstimate = "pi ~ 3.1421" := by
  constructor
  · intro sys d s hf hact hs hk hmiss
    have hno : cacheHas sys.cache (taskFingerprint d
        [CallArg.scalar "echo", .scalar "-n", .scalar s]) = false := by
      simp [cacheHas, hmiss]
    have hr1 : (callApp sys d [CallArg.scalar "echo", .scalar "-n", .scalar s]).1.records
        sys.nextId =
        some (newRecord sys d [CallArg.scalar "echo", .scalar "-n", .scalar s]) :=
      callApp_records_self sys d _ hs
    have hd : depsSucceeded sys
        ((depFutures [CallArg.scalar "echo", .scalar "-n", .scalar s]).map
          Future.task_id) = true := rfl
    have hr1state : (newRecord sys d
        [CallArg.scalar "echo", .scalar "-n", .scalar s]).state = .PENDING := by
      simp [newRecord, initialState, hno, hd]
    have hq1 : (callApp sys d [CallArg.scalar "echo", .scalar "-n", .scalar s]).1.qstate =
        .ACTIVE := (callApp_qstate sys d _).trans hact
    have hdeps1 : depsSucceeded
        (callApp sys d [CallArg.scalar "echo", .scalar "-n", .scalar s]).1
        (newRecord sys d [CallArg.scalar "echo", .scalar "-n", .scalar s]).dep_ids =
        true := rfl
    have step2 : Step (callApp sys d [CallArg.scalar "echo", .scalar "-n", .scalar s]).1
        (.claim sys.nextId)
        (setState (callApp sys d [CallArg.scalar "echo", .scalar "-n", .scalar s]).1
          sys.nextId .RUNNING) :=
      Step.claim _ sys.nextId _ hq1 hr1 hr1state hdeps1
    have hr2 : (setState (callApp sys d
        [CallArg.scalar "echo", .scalar "-n", .scalar s]).1 sys.nextId .RUNNING).records
        sys.nextId =
        some { newRecord sys d [CallArg.scalar "echo", .scalar "-n", .scalar s] with
               state := .RUNNING } := by
      simp only [setState]
      rw [updateRecord_records_self, hr1]
      rfl
    have hkind : ({ newRecord sys d [CallArg.scalar "echo", .scalar "-n", .scalar s] with
        state := .RUNNING } : TaskRecord).kind = .BASH_APP := by
      simpa [newRecord] using hk
    have hbash : bashStdout ({ newRecord sys d
        [CallArg.scalar "echo", .scalar "-n", .scalar s] with
        state := .RUNNING } : TaskRecord).args = some s := rfl
    have step3 : Step
        (setState (callApp sys d [CallArg.scalar "echo", .scalar "-n", .scalar s]).1
          sys.nextId .RUNNING)
        (.finishBash sys.nextId)
        (runToCompletion sys d [CallArg.scalar "echo", .scalar "-n", .scalar s] s s) :=
      Step.finishBash _ sys.nextId _ s hr2 rfl hkind hbash
    have hr3 : (runToCompletion sys d
        [CallArg.scalar "echo", .scalar "-n", .scalar s] s s).records sys.nextId =
        some { newRecord sys d [CallArg.scalar "echo", .scalar "-n", .scalar s] with
          state := .SUCCEEDED, errno := 0,
          out := s, result_ref := some (taskFingerprint d
            [CallArg.scalar "echo", .scalar "-n", .scalar s]) } := by
      rw [runToCompletion, finishOkSys_records_eq _ sys.nextId s s _ hr2,
        updateRecord_records_self, hr2]
      rfl
    refine ⟨?_, ?_⟩
    · exact Steps.cons (Step.enq sys d _) (Steps.cons step2
        (Steps.cons step3 (Steps.nil _)))
    · simp [observeOut, hr3, terminalState]
  · decide

/-- Witness for C8: enqueuing the sample echo bash app on the empty queue
with the formatted session estimate and running it to completion yields
captured stdout exactly "pi ~ 3.1421". -/
theorem bash_app_captures_stdout_witness :
    observeOut (runToCompletion emptySys echoDecl
        [CallArg.scalar "echo", .scalar "-n",
         .scalar ("pi ~ " ++ format4f piEstimate)]
        ("pi ~ " ++ format4f piEstimate) ("pi ~ " ++ format4f piEstimate))
      { task_id := 0
        fingerprint := taskFingerprint echoDecl
          [CallArg.scalar "echo", .scalar "-n",
           .scalar ("pi ~ " ++ format4f piEstimate)] } =
      some "pi ~ 3.1421" := by
  have h := bash_app_captures_stdout.1 emptySys echoDecl
      ("pi ~ " ++ format4f piEstimate) (fun n _ => rfl) rfl rfl rfl rfl
  rw [← bash_app_captures_stdout.2]
  exact h.2

/-- Membership in the option expansion is exactly the Cartesian product:
an assignment pairs each option, in order, with one of its expanded
values. -/
theorem mem_expandOptions (opts : List (String × OptionSpec))
    (asn : List (String × OptValue)) :
    asn ∈ expandOptions opts ↔
      List.Forall₂ (fun (o : String × OptionSpec) (a : String × OptValue) =>
        a.1 = o.1 ∧ a.2 ∈ o.2.expand) opts asn := by
  induction opts generalizing asn with
  | nil =>
    simp [expandOptions, List.forall₂_nil_left_iff]
  | cons o rest ih =>
    obtain ⟨n, spec⟩ := o
    simp only [expandOptions, List.mem_flatMap, List.mem_map]
    constructor
    · rintro ⟨v, hv, t, ht, rfl⟩
      exact List.Forall₂.cons ⟨rfl, hv⟩ ((ih t).mp ht)
    · intro h
      rw [List.forall₂_cons_left_iff] at h
      obtain ⟨⟨bn, bv⟩, u', ⟨hb1, hb2⟩, hf, rfl⟩ := h
      simp only at hb1 hb2
      subst hb1
      exact ⟨bv, hb2, u', (ih u').mpr hf, rfl⟩

/-- **C9** — iterating over a file-catalog entry produces exactly the
Cartesian product of its options with path formatting applied (a file is
produced iff it renders some assignment pairing each option with one of
its values, in option order); `${NAME}` path segments are expanded from
the environment at read time; selection returns exactly the entries whose
description matches every keyword, with each filtered option restricted
to the listed values; and on the notebook's `files.yaml` entry with
`SOMEDIR=_tests`, `select(keywords='text file', option1=['a'])` iterates
to exactly the three printed files `_tests/in_a_0.txt`, `_tests/in_a_1.txt`,
`_tests/in_a_2.txt`. -/
theorem catalog_iteration_product_and_selection :
    (∀ (env : List (String × String)) (e : FileEntry) (fi : File),
      fi ∈ entryFiles env e ↔
        ∃ asn, List.Forall₂
            (fun (o : String × OptionSpec) (a : String × OptValue) =>
              a.1 = o.1 ∧ a.2 ∈ o.2.expand) e.options asn
          ∧ fi = { filetype := e.filetype, id := e.id, author := e.author
                   options := asn, description := e.description
                   filepath := renderPath env asn e.path })
    ∧ (∀ (env : List (String × String)) (asn : List (String × OptValue))
        (n : String), renderSeg env asn (.env n) = envLookup env n)
    ∧ (∀ (keywords : String) (filters : List (String × List OptValue))
        (es : List FileEntry) (e' : FileEntry),
      e' ∈ selectCatalog keywords filters es ↔
        ∃ e, e ∈ es ∧ keywordMatch keywords e.description = true
          ∧ e' = { e with options := applyFilters filters e.options })
    ∧ (∀ (spec : OptionSpec) (allowed : List OptValue) (v : OptValue),
      v ∈ (OptionSpec.values (spec.expand.filter
          fun u => allowed.contains u)).expand ↔
        v ∈ spec.expand ∧ allowed.contains v = true)
    ∧ ((selectCatalog "text file" [("option1", [OptValue.str "a"])]
          [myInputFile]).flatMap (entryFiles testsEnv) =
      [{ filetype := "text", id := "my_input_file"
         author := some "Chuck Norris"
         options := [("option1", .str "a"), ("i", .int 0)]
         description := "Some text file", filepath := "_tests/in_a_0.txt" },
       { filetype := "text", id := "my_input_file"
         author := some "Chuck Norris"
         options := [("option1", .str "a"), ("i", .int 1)]
         description := "Some text file", filepath := "_tests/in_a_1.txt" },
       { filetype := "text", id := "my_input_file"
         author := some "Chuck Norris"
         options := [("option1", .str "a"), ("i", .int 2)]
         description := "Some text file", filepath := "_tests/in_a_2.txt" }]) := by
  refine ⟨?_, fun env asn n => rfl, ?_, ?_, by decide⟩
  · intro env e fi
    simp only [entryFiles, List.mem_map]
    constructor
    · rintro ⟨asn, hasn, rfl⟩
      exact ⟨asn, (mem_expandOptions e.options asn).mp hasn, rfl⟩
    · rintro ⟨asn, hasn, rfl⟩
      exact ⟨asn, (mem_expandOptions e.options asn).mpr hasn, rfl⟩
  · intro keywords filters es e'
    simp only [selectCatalog, List.mem_filterMap, selectEntry]
    constructor
    · rintro ⟨e, he, hsome⟩
      by_cases hkw : keywordMatch keywords e.description = true
      · rw [if_pos hkw] at hsome
        exact ⟨e, he, hkw, (Option.some.inj hsome).symm⟩
      · rw [if_neg hkw] at hsome
        exact Option.noConfusion hsome
    · rintro ⟨e, he, hkw, rfl⟩
      exact ⟨e, he, by rw [if_pos hkw]⟩
  · intro spec allowed v
    simp [OptionSpec.expand, List.mem_filter]

/-- Witness for C9: applying the Cartesian characterization forward at
the first concrete file of the notebook example. -/
theorem catalog_iteration_product_and_selection_witness :
    ∃ asn, List.Forall₂
        (fun (o : String × OptionSpec) (a : String × OptValue) =>
          a.1 = o.1 ∧ a.2 ∈ o.2.expand) myInputFile.options asn
      ∧ ({ filetype := "text", id := "my_input_file"
           author := some "Chuck Norris"
           options := [("option1", .str "a"), ("i", .int 0)]
           description := "Some text file"
           filepath := "_tests/in_a_0.txt" } : File) =
        { filetype := myInputFile.filetype, id := myInputFile.id
          author := myInputFile.author, options := asn
          description := myInputFile.description
          filepath := renderPath testsEnv asn myInputFile.path } := by
  exact (catalog_iteration_product_and_selection.1 testsEnv myInputFile
    _).mp (by decide)

/-- Writing then reading an option specifier gives it back unchanged. -/
theorem parseSpecForm_writeSpecForm (spec : OptionSpec) :
    parseSpecForm (writeSpecForm spec) = some spec := by
  cases spec with
  | values vs => rfl
  | range a b s =>
    by_cases hs : s = 1
    · subst hs
      simp [writeSpecForm, parseSpecForm]
    · simp [writeSpecForm, parseSpecForm, hs]

/-- Keyed `find?` is invariant under permutation when keys are nodup. -/
theorem find?_key_eq_of_perm {α : Type} {l1 l2 : List (String × α)}
    (hperm : l1.Perm l2) (hnd : (l1.map Prod.fst).Nodup) (k : String) :
    l1.find? (fun p => p.1 = k) = l2.find? (fun p => p.1 = k) := by
  induction hperm with
  | nil => rfl
  | cons x h ih =>
    simp only [List.map_cons, List.nodup_cons] at hnd
    by_cases hx : x.1 = k
    · rw [List.find?_cons_of_pos _ (by simpa using hx),
        List.find?_cons_of_pos _ (by simpa using hx)]
    · rw [List.find?_cons_of_neg _ (by simpa using hx),
        List.find?_cons_of_neg _ (by simpa using hx)]
      exact ih hnd.2
  | swap x y l =>
    simp only [List.map_cons, List.nodup_cons, List.mem_cons] at hnd
    have hxy : y.1 ≠ x.1 := fun hh => hnd.1 (Or.inl hh)
    by_cases hy : y.1 = k
    · by_cases hx : x.1 = k
      · exact absurd (hy.trans hx.symm) hxy
      · rw [List.find?_cons_of_pos _ (by simpa using hy),
          List.find?_cons_of_neg _ (by simpa using hx),
          List.find?_cons_of_pos _ (by simpa using hy)]
    · by_cases hx : x.1 = k
      · rw [List.find?_cons_of_neg _ (by simpa using hy),
          List.find?_cons_of_pos _ (by simpa using hx),
          List.find?_cons_of_pos _ (by simpa using hx)]
      · rw [List.find?_cons_of_neg _ (by simpa using hy),
          List.find?_cons_of_neg _ (by simpa using hx),
          List.find?_cons_of_neg _ (by simpa using hx),
          List.find?_cons_of_neg _ (by simpa using hy)]
  | trans h1 h2 ih1 ih2 =>
    have hnd2 := ((h1.map Prod.fst).nodup_iff).mp hnd
    exact (ih1 hnd).trans (ih2 hnd2)

/-- `sortPairs` permutes its input. -/
theorem sortPairs_perm {α : Type} (l : List (String × α)) :
    (sortPairs l).Perm l :=
  List.perm_insertionSort _ l

/-- `sortPairs` sorts the keys. -/
theorem sortPairs_sorted_keys {α : Type} (l : List (String × α)) :
    ((sortPairs l).map Prod.fst).Pairwise (fun a b : String => a ≤ b) := by
  haveI : IsTotal (String × α) (fun p q => p.1 ≤ q.1) :=
    ⟨fun a b => le_total a.1 b.1⟩
  haveI : IsTrans (String × α) (fun p q => p.1 ≤ q.1) :=
    ⟨fun a b c hab hbc => le_trans hab hbc⟩
  have h := List.sorted_insertionSort (fun p q : String × α => p.1 ≤ q.1) l
  rw [List.pairwise_map]
  exact h

/-- Sorting by key commutes with mapping over values. -/
theorem orderedInsert_map_comm {α β : Type} (g : α → β) (x : String × α)
    (l : List (String × α)) :
    List.orderedInsert (fun p q => p.1 ≤ q.1) (x.1, g x.2)
        (l.map fun p => (p.1, g p.2)) =
      (List.orderedInsert (fun p q => p.1 ≤ q.1) x l).map
        fun p => (p.1, g p.2) := by
  induction l with
  | nil => rfl
  | cons y t ih =>
    simp only [List.map_cons, List.orderedInsert]
    by_cases h : x.1 ≤ y.1
    · rw [if_pos h, if_pos h]
      rfl
    · rw [if_neg h, if_neg h, ih]
      rfl

/-- Sorting by key commutes with mapping over values. -/
theorem sortPairs_map_comm {α β : Type} (g : α → β)
    (l : List (String × α)) :
    sortPairs (l.map fun p => (p.1, g p.2)) =
      (sortPairs l).map fun p => (p.1, g p.2) := by
  induction l with
  | nil => rfl
  | cons x t ih =>
    simp only [List.map_cons, sortPairs, List.insertionSort] at *
    rw [ih]
    exact orderedInsert_map_comm g x (List.insertionSort _ t)

/-- Parsing the written options block gives the options back unchanged. -/
theorem parseOptionsForm_write (l : List (String × OptionSpec)) :
    parseOptionsForm (l.map fun p => (p.1, writeSpecForm p.2)) = some l := by
  induction l with
  | nil => rfl
  | cons p t ih =>
    simp only [List.map_cons, parseOptionsForm, List.mapM_cons] at *
    rw [parseSpecForm_writeSpecForm, ih]
    rfl

/-- Unfold membership in the expansion of a cons of options. -/
theorem mem_expandOptions_cons {n : String} {spec : OptionSpec}
    {rest : List (String × OptionSpec)} {asn : List (String × OptValue)} :
    asn ∈ expandOptions ((n, spec) :: rest) ↔
      ∃ v ∈ spec.expand, ∃ t ∈ expandOptions rest, asn = (n, v) :: t := by
  simp only [expandOptions, List.mem_flatMap, List.mem_map]
  constructor
  · rintro ⟨v, hv, t, ht, rfl⟩
    exact ⟨v, hv, t, ht, rfl⟩
  · rintro ⟨v, hv, t, ht, rfl⟩
    exact ⟨v, hv, t, ht, rfl⟩

/-- Against a permutation of the options with nodup keys, every
assignment of the permuted options corresponds to an assignment of the
original options with the same key-value mapping. -/
theorem expandOptions_perm_lookup {opts1 opts2 : List (String × OptionSpec)}
    (hperm : opts1.Perm opts2) (hnd : (opts1.map Prod.fst).Nodup) :
    ∀ asn2 ∈ expandOptions opts2, ∃ asn1 ∈ expandOptions opts1,
      ∀ n, asnLookup asn1 n = asnLookup asn2 n := by
  induction hperm with
  | nil =>
    intro asn2 h
    exact ⟨asn2, h, fun n => rfl⟩
  | cons x h ih =>
    obtain ⟨xn, xs⟩ := x
    simp only [List.map_cons, List.nodup_cons] at hnd
    intro asn2 hasn
    obtain ⟨v, hv, t2, ht2, rfl⟩ := mem_expandOptions_cons.mp hasn
    obtain ⟨t1, ht1, hlk⟩ := ih hnd.2 t2 ht2
    refine ⟨(xn, v) :: t1, mem_expandOptions_cons.mpr ⟨v, hv, t1, ht1, rfl⟩, ?_⟩
    intro k
    by_cases hk : xn = k
    · simp only [asnLookup]
      rw [List.find?_cons_of_pos _ (by simpa using hk),
        List.find?_cons_of_pos _ (by simpa using hk)]
    · simp only [asnLookup]
      rw [List.find?_cons_of_neg _ (by simpa using hk),
        List.find?_cons_of_neg _ (by simpa using hk)]
      exact hlk k
  | swap x y l =>
    obtain ⟨xn, xs⟩ := x
    obtain ⟨yn, ys⟩ := y
    simp only [List.map_cons, List.nodup_cons, List.mem_cons] at hnd
    have hxy : yn ≠ xn := fun hh => hnd.1 (Or.inl hh)
    intro asn2 hasn
    obtain ⟨vx, hvx, t', ht', rfl⟩ := mem_expandOptions_cons.mp hasn
    obtain ⟨vy, hvy, t, ht, rfl⟩ := mem_expandOptions_cons.mp ht'
    refine ⟨(yn, vy) :: (xn, vx) :: t,
      mem_expandOptions_cons.mpr ⟨vy, hvy, (xn, vx) :: t,
        mem_expandOptions_cons.mpr ⟨vx, hvx, t, ht, rfl⟩, rfl⟩, ?_⟩
    intro k
    by_cases hyk : yn = k
    · have hxk : ¬(xn = k) := fun hh => hxy (hyk.trans hh.symm)
      simp only [asnLookup]
      rw [List.find?_cons_of_pos _ (by simpa using hyk),
        List.find?_cons_of_neg _ (by simpa using hxk),
        List.find?_cons_of_pos _ (by simpa using hyk)]
    · by_cases hxk : xn = k
      · simp only [asnLookup]
        rw [List.find?_cons_of_neg _ (by simpa using hyk),
          List.find?_cons_of_pos _ (by simpa using hxk),
          List.find?_cons_of_pos _ (by simpa using hxk)]
      · simp only [asnLookup]
        rw [List.find?_cons_of_neg _ (by simpa using hyk),
          List.find?_cons_of_neg _ (by simpa using hxk),
          List.find?_cons_of_neg _ (by simpa using hxk),
          List.find?_cons_of_neg _ (by simpa using hyk)]
  | trans h1 h2 ih1 ih2 =>
    intro asn3 h3
    have hnd2 := ((h1.map Prod.fst).nodup_iff).mp hnd
    obtain ⟨asn2, h2m, hlk2⟩ := ih2 hnd2 asn3 h3
    obtain ⟨asn1, h1m, hlk1⟩ := ih1 hnd asn2 h2m
    exact ⟨asn1, h1m, fun n => (hlk1 n).trans (hlk2 n)⟩

/-- Path rendering only depends on the assignment through key lookup. -/
theorem renderPath_lookup_congr (env : List (String × String))
    (asn1 asn2 : List (String × OptValue))
    (h : ∀ n, asnLookup asn1 n = asnLookup asn2 n) (path : List PathSeg) :
    renderPath env asn1 path = renderPath env asn2 path := by
  have hseg : ∀ seg, renderSeg env asn1 seg = renderSeg env asn2 seg := by
    intro seg
    cases seg with
    | lit s => rfl
    | env n => rfl
    | field n fmt => simp [renderSeg, h n]
  simp only [renderPath]
  rw [List.map_congr_left fun seg _ => hseg seg]

/-- The rendered filepaths of an entry, by membership. -/
theorem mem_filepaths (env : List (String × String)) (e : FileEntry)
    (fp : String) :
    fp ∈ (entryFiles env e).map File.filepath ↔
      ∃ asn ∈ expandOptions e.options, fp = renderPath env asn e.path := by
  simp only [entryFiles, List.map_map, List.mem_map, Function.comp]
  constructor
  · rintro ⟨asn, h, rfl⟩
    exact ⟨asn, h, rfl⟩
  · rintro ⟨asn, h, rfl⟩
    exact ⟨asn, h, rfl⟩

/-- **C10** — writing a catalog back normalizes it while preserving its
meaning: a `range(0, 3, 1)` specifier is written in the canonical form
`range(0, 3)`; writing then parsing any specifier yields it back exactly;
the emitted entry keys, and the emitted option keys, are in sorted order;
and for any entry with distinct option names, reading the written entry
succeeds and yields an entry whose options are a permutation (the sorted
order) of the original and which expands to exactly the same set of
filepaths. -/
theorem catalog_write_read_roundtrip :
    writeSpecForm (.range 0 3 1) = .rangeForm [0, 3]
    ∧ (∀ spec : OptionSpec, parseSpecForm (writeSpecForm spec) = some spec)
    ∧ (∀ e : FileEntry,
        ((writeEntryForm e).map Prod.fst).Pairwise (fun a b : String => a ≤ b))
    ∧ (∀ l : List (String × OptionSpec),
        ((sortPairs (l.map fun p => (p.1, writeSpecForm p.2))).map
          Prod.fst).Pairwise (fun a b : String => a ≤ b))
    ∧ (∀ e : FileEntry, (e.options.map Prod.fst).Nodup →
        ∃ e', parseEntryForm (writeEntryForm e) = some e'
          ∧ e'.options.Perm e.options
          ∧ ∀ (env : List (String × String)) (fp : String),
              (fp ∈ (entryFiles env e').map File.filepath ↔
               fp ∈ (entryFiles env e).map File.filepath)) := by
  refine ⟨rfl, parseSpecForm_writeSpecForm,
    fun e => sortPairs_sorted_keys _, fun l => sortPairs_sorted_keys _, ?_⟩
  intro e hnd
  obtain ⟨de, eid, ft, au, pth, opts⟩ := e
  simp only at hnd
  have hndf : ((entryFields ⟨de, eid, ft, au, pth, opts⟩).map Prod.fst).Nodup := by
    cases au with
    | none =>
      have hkeys : (entryFields ⟨de, eid, ft, none, pth, opts⟩).map Prod.fst =
          ["description", "id", "filetype", "path", "options"] := rfl
      rw [hkeys]
      decide
    | some a =>
      have hkeys : (entryFields ⟨de, eid, ft, some a, pth, opts⟩).map Prod.fst =
          ["description", "id", "filetype", "path", "options", "author"] := rfl
      rw [hkeys]
      decide
  have hndw : ((writeEntryForm ⟨de, eid, ft, au, pth, opts⟩).map Prod.fst).Nodup := by
    refine (List.Perm.nodup_iff ?_).mpr hndf
    exact (sortPairs_perm _).map Prod.fst
  have hfl : ∀ k, fieldLookup (writeEntryForm ⟨de, eid, ft, au, pth, opts⟩) k =
      fieldLookup (entryFields ⟨de, eid, ft, au, pth, opts⟩) k := by
    intro k
    exact congrArg (Option.map Prod.snd)
      (find?_key_eq_of_perm (sortPairs_perm _) hndw k)
  refine ⟨{ description := de, id := eid, filetype := ft, author := au
            path := pth, options := sortPairs opts }, ?_, sortPairs_perm opts, ?_⟩
  · have hopts : parseOptionsForm (sortPairs
        (opts.map fun p => (p.1, writeSpecForm p.2))) = some (sortPairs opts) := by
      rw [sortPairs_map_comm, parseOptionsForm_write]
    cases au with
    | none =>
      have hl1 : fieldLookup (entryFields ⟨de, eid, ft, none, pth, opts⟩)
          "description" = some (.scalarF de) := rfl
      have hl2 : fieldLookup (entryFields ⟨de, eid, ft, none, pth, opts⟩)
          "id" = some (.scalarF eid) := rfl
      have hl3 : fieldLookup (entryFields ⟨de, eid, ft, none, pth, opts⟩)
          "filetype" = some (.scalarF ft) := rfl
      have hl4 : fieldLookup (entryFields ⟨de, eid, ft, none, pth, opts⟩)
          "path" = some (.pathF pth) := rfl
      have hl5 : fieldLookup (entryFields ⟨de, eid, ft, none, pth, opts⟩)
          "options" = some (.optionsF (sortPairs
            (opts.map fun p => (p.1, writeSpecForm p.2)))) := rfl
      have hl6 : fieldLookup (entryFields ⟨de, eid, ft, none, pth, opts⟩)
          "author" = none := rfl
      rw [parseEntryForm, hfl "description", hfl "id", hfl "filetype",
        hfl "path", hfl "options", hfl "author", hl1, hl2, hl3, hl4, hl5, hl6]
      dsimp only
      rw [hopts]
      rfl
    | some a =>
      have hl1 : fieldLookup (entryFields ⟨de, eid, ft, some a, pth, opts⟩)
          "description" = some (.scalarF de) := rfl
      have hl2 : fieldLookup (entryFields ⟨de, eid, ft, some a, pth, opts⟩)
          "id" = some (.scalarF eid) := rfl
      have hl3 : fieldLookup (entryFields ⟨de, eid, ft, some a, pth, opts⟩)
          "filetype" = some (.scalarF ft) := rfl
      have hl4 : fieldLookup (entryFields ⟨de, eid, ft, some a, pth, opts⟩)
          "path" = some (.pathF pth) := rfl
      have hl5 : fieldLookup (entryFields ⟨de, eid, ft, some a, pth, opts⟩)
          "options" = some (.optionsF (sortPairs
            (opts.map fun p => (p.1, writeSpecForm p.2)))) := rfl
      have hl6 : fieldLookup (entryFields ⟨de, eid, ft, some a, pth, opts⟩)
          "author" = some (.scalarF a) := rfl
      rw [parseEntryForm, hfl "description", hfl "id", hfl "filetype",
        hfl "path", hfl "options", hfl "author", hl1, hl2, hl3, hl4, hl5, hl6]
      dsimp only
      rw [hopts]
      rfl
  · intro env fp
    rw [mem_filepaths, mem_filepaths]
    simp only
    constructor
    · rintro ⟨asn', hasn', rfl⟩
      obtain ⟨asn, hasn, hlk⟩ := expandOptions_perm_lookup
        (sortPairs_perm opts).symm hnd asn' hasn'
      exact ⟨asn, hasn,
        (renderPath_lookup_congr env asn asn' (fun n => hlk n) pth).symm⟩
    · rintro ⟨asn, hasn, rfl⟩
      have hnd' : ((sortPairs opts).map Prod.fst).Nodup :=
        (List.Perm.nodup_iff ((sortPairs_perm opts).map Prod.fst)).mpr hnd
      obtain ⟨asn', hasn', hlk⟩ := expandOptions_perm_lookup
        (sortPairs_perm opts) hnd' asn hasn
      exact ⟨asn', hasn',
        (renderPath_lookup_congr env asn' asn (fun n => hlk n) pth).symm⟩

/-- Witness for C10: the notebook's `my_input_file` entry round-trips:
its `range(0, 3, 1)` is written `range(0, 3)`, parsing the written entry
succeeds with sorted options, and the written entry expands to the same
filepaths. -/
theorem catalog_write_read_roundtrip_witness :
    writeSpecForm (.range 0 3 1) = .rangeForm [0, 3]
    ∧ ∃ e', parseEntryForm (writeEntryForm myInputFile) = some e'
        ∧ e'.options.Perm myInputFile.options
        ∧ ("_tests/in_a_0.txt" ∈ (entryFiles testsEnv e').map File.filepath ↔
           "_tests/in_a_0.txt" ∈ (entryFiles testsEnv myInputFile).map
             File.filepath) := by
  obtain ⟨e', h1, h2, h3⟩ :=
    catalog_write_read_roundtrip.2.2.2.2 myInputFile (by decide)
  exact ⟨catalog_write_read_roundtrip.1, e', h1, h2,
    h3 testsEnv "_tests/in_a_0.txt"⟩

/-- Witness for C3: the concrete `claim` transition PENDING → RUNNING of
the sample pending record is an allowed DAG edge and its dependency guard
held. -/
theorem state_transitions_form_dag_witness :
    allowedEdge pendingRecord.state TState.RUNNING = true
    ∧ depsSucceeded pendingSys pendingRecord.dep_ids = true := by
  have hfresh : FreshIds pendingSys := by
    intro n hn
    have hn1 : 1 ≤ n := hn
    have hn0 : n ≠ 0 := by omega
    simp [pendingSys, hn0]
  have hstep : Step pendingSys (.claim 0) (setState pendingSys 0 .RUNNING) :=
    Step.claim pendingSys 0 pendingRecord rfl rfl rfl rfl
  have h := state_transitions_form_dag pendingSys
      (setState pendingSys 0 .RUNNING) (.claim 0) 0 pendingRecord
      { pendingRecord with state := .RUNNING } hstep hfresh rfl rfl (by decide)
  exact ⟨h.1, (h.2.2.1 rfl).2⟩

end Desipipe
